import Mathlib

/-!
Shallow embedding of the lifxdev binary protocol codec
(src/lifxdev/messages/packet.py) and of the device-manager classification
and discovery aggregation (src/lifxdev/devices/device_manager.py).

Byte strings are lists of naturals; multi-byte integers are little endian,
mirroring Python struct.pack / struct.unpack with format characters B, H,
I, Q. Failure (a Python exception) is modelled with Option or Except.
-/

namespace Lifx

/-- Little-endian byte representation of v on n bytes (struct.pack digits). -/
def natToLE : Nat → Nat → List Nat
  | 0, _ => []
  | n + 1, v => v % 256 :: natToLE n (v / 256)

/-- Little-endian value of a byte list (struct.unpack). -/
def leToNat : List Nat → Nat
  | [] => 0
  | b :: bs => b + 256 * leToNat bs

/-- Python struct.pack of one unsigned little-endian value on n bytes; struct.pack
raises struct.error when the value is out of range for the format. -/
def packUint (n v : Nat) : Option (List Nat) :=
  if v < 2 ^ (8 * n) then some (natToLE n v) else none

/-- Python struct.pack of a list of unsigned values, each on n bytes. -/
def packUintList (n : Nat) : List Nat → Option (List Nat)
  | [] => some []
  | v :: vs => do
      let b ← packUint n v
      let rest ← packUintList n vs
      pure (b ++ rest)

/-- Python struct.unpack of count unsigned values of w bytes each. -/
def unpackInts (w : Nat) : Nat → List Nat → List Nat
  | 0, _ => []
  | c + 1, bs => leToNat (bs.take w) :: unpackInts w c (bs.drop w)

/-! Frame (packet.py class Frame): registers size u16, protocol u12,
addressable bool, tagged bool, origin u2, source u32. -/

/-- Frame header state. -/
structure Frame where
  size : Nat
  protocol : Nat
  addressable : Bool
  tagged : Bool
  origin : Nat
  source : Nat
deriving Repr, DecidableEq

/-- Register names of the Frame. -/
inductive FrameField
  | size
  | protocol
  | addressable
  | tagged
  | origin
  | source
deriving Repr, DecidableEq

/-- Frame.set_value: the LIFX Frame specification requires protocol,
addressable and origin to be constant, so writes to them are silently pinned
to 1024, true and 0. Boolean registers store the truthiness of the value. -/
def Frame.set_value (f : Frame) : FrameField → Nat → Frame
  | .size, v => { f with size := v }
  | .protocol, _ => { f with protocol := 1024 }
  | .addressable, _ => { f with addressable := true }
  | .tagged, v => { f with tagged := v != 0 }
  | .origin, _ => { f with origin := 0 }
  | .source, v => { f with source := v }

/-- Frame construction: every register is initialised through set_value with
its keyword argument (size, source) or its zero default. -/
def Frame.init (size source : Nat) : Frame :=
  ((((((⟨0, 0, false, false, 0, 0⟩ : Frame).set_value .size size).set_value
      .protocol 0).set_value .addressable 0).set_value .tagged 0).set_value
      .origin 0).set_value .source source

/-- Frame.to_bytes: the sub-byte registers are packed into one 16-bit word
(protocol in bits 0-11, addressable bit 12, tagged bit 13, origin bits 14-15)
and the whole frame is struct.pack with format HHI. -/
def Frame.to_bytes (f : Frame) : Option (List Nat) :=
  let bitField := f.protocol ||| (f.addressable.toNat <<< 12) |||
      (f.tagged.toNat <<< 13) ||| (f.origin <<< 14)
  do
    let sizeBytes ← packUint 2 f.size
    let bitBytes ← packUint 2 bitField
    let sourceBytes ← packUint 4 f.source
    pure (sizeBytes ++ bitBytes ++ sourceBytes)

/-- Frame.from_bytes: struct.unpack with format HHI, then the bit field is
peeled off register by register through set_value (which pins the constant
registers regardless of the wire bits). -/
def Frame.from_bytes (bs : List Nat) : Frame :=
  let size := leToNat (bs.take 2)
  let bitField := leToNat ((bs.drop 2).take 2)
  let source := leToNat ((bs.drop 4).take 4)
  let f0 := Frame.init size source
  let f1 := f0.set_value .protocol (bitField % (1 <<< 12))
  let r1 := bitField >>> 12
  let f2 := f1.set_value .addressable (r1 % (1 <<< 1))
  let r2 := r1 >>> 1
  let f3 := f2.set_value .tagged (r2 % (1 <<< 1))
  let r3 := r2 >>> 1
  f3.set_value .origin r3

/-! FrameAddress (packet.py class FrameAddress): registers target 8 x u8,
reserved_1 6 x u8, res_required bool, ack_required bool, reserved_2 u6,
sequence u8. Reserved registers are pinned to zero by the base
LifxStruct.set_value. -/

/-- FrameAddress state. -/
structure FrameAddress where
  target : List Nat
  reserved_1 : List Nat
  res_required : Bool
  ack_required : Bool
  reserved_2 : Nat
  sequence : Nat
deriving Repr, DecidableEq

/-- FrameAddress.to_bytes: target bytes, six reserved zero bytes, one flags
byte (res_required bit 0, ack_required bit 1), sequence byte. The target and
reserved registers are struct.pack with eight, resp. six, B formats. -/
def FrameAddress.to_bytes (fa : FrameAddress) : Option (List Nat) := do
  let targetBytes ← if fa.target.length = 8 then packUintList 1 fa.target else none
  let res1Bytes ← if fa.reserved_1.length = 6 then packUintList 1 fa.reserved_1 else none
  let seqBytes ← packUint 1 fa.sequence
  let bitField := fa.res_required.toNat ||| (fa.ack_required.toNat <<< 1)
  let bitBytes ← packUint 1 bitField
  pure (targetBytes ++ res1Bytes ++ bitBytes ++ seqBytes)

/-- FrameAddress.from_bytes: a default instance is built (reserved registers
zero) and target, res_required (bit 0 of the flags byte), ack_required (the
flags byte divided by two) and sequence are set from the wire bytes. Callers
supply a 16-byte slice. -/
def FrameAddress.from_bytes (bs : List Nat) : FrameAddress :=
  let bitField := leToNat ((bs.drop 14).take 1)
  { target := bs.take 8
    reserved_1 := List.replicate 6 0
    res_required := bitField % 2 != 0
    ack_required := bitField / 2 != 0
    reserved_2 := 0
    sequence := leToNat ((bs.drop 15).take 1) }

/-! ProtocolHeader (packet.py class ProtocolHeader): registers reserved_1 u64,
type u16, reserved_2 u16, encoded with the generic LifxStruct.to_bytes. -/

/-- ProtocolHeader state. -/
structure ProtocolHeader where
  reserved_1 : Nat
  type : Nat
  reserved_2 : Nat
deriving Repr, DecidableEq

/-- ProtocolHeader.to_bytes (generic LifxStruct.to_bytes): struct.pack of the
three registers in order with formats Q, H, H. -/
def ProtocolHeader.to_bytes (ph : ProtocolHeader) : Option (List Nat) := do
  let r1Bytes ← packUint 8 ph.reserved_1
  let typeBytes ← packUint 2 ph.type
  let r2Bytes ← packUint 2 ph.reserved_2
  pure (r1Bytes ++ typeBytes ++ r2Bytes)

/-- ProtocolHeader.from_bytes (generic LifxStruct.from_bytes): the registers
are unpacked and fed to the constructor, whose set_value pins the reserved
registers to zero, so only the type survives. -/
def ProtocolHeader.from_bytes (bs : List Nat) : ProtocolHeader :=
  ⟨0, leToNat ((bs.drop 8).take 2), 0⟩

/-! Hsbk (packet.py class Hsbk): registers hue, saturation, brightness,
kelvin, all u16. Hsbk.set_value validates kelvin. -/

/-- HSBK register values. -/
structure HsbkV where
  hue : Nat
  saturation : Nat
  brightness : Nat
  kelvin : Nat
deriving Repr, DecidableEq

/-- Register names of an Hsbk. -/
inductive HsbkField
  | hue
  | saturation
  | brightness
  | kelvin
deriving Repr, DecidableEq

/-- Hsbk.set_value: a non-zero kelvin must lie in 2500..9000, otherwise
ValueError (Kelvin out of range); zero kelvin is accepted so that the default
constructor works. Other registers are stored without checks. It models the
scalar path of the Python method (a singleton list is unwrapped to its
element before this check). -/
def HsbkV.set_value (h : HsbkV) (name : HsbkField) (v : Nat) : Except String HsbkV :=
  if name = HsbkField.kelvin ∧ v ≠ 0 ∧ (v < 2500 ∨ 9000 < v) then
    Except.error "Kelvin out of range."
  else
    Except.ok (match name with
      | .hue => { h with hue := v }
      | .saturation => { h with saturation := v }
      | .brightness => { h with brightness := v }
      | .kelvin => { h with kelvin := v })

/-- Hsbk.to_bytes (generic LifxStruct.to_bytes): four u16 values in order. -/
def hsbkToBytes (h : HsbkV) : Option (List Nat) :=
  packUintList 2 [h.hue, h.saturation, h.brightness, h.kelvin]

/-- Hsbk.from_bytes (generic LifxStruct.from_bytes): four u16 values are
unpacked and fed to the constructor, whose set_value raises when the decoded
kelvin is non-zero and outside 2500..9000. -/
def hsbkFromBytes (bs : List Nat) : Option HsbkV :=
  let h : HsbkV := ⟨leToNat (bs.take 2), leToNat ((bs.drop 2).take 2),
      leToNat ((bs.drop 4).take 2), leToNat ((bs.drop 6).take 2)⟩
  if h.kelvin ≠ 0 ∧ (h.kelvin < 2500 ∨ 9000 < h.kelvin) then none else some h

/-! Generic LifxStruct model for registered message payloads. The registered
payload schemas are built from the byte-aligned LifxType kinds that the
generic to_bytes and from_bytes support (u8, u16, u32, u64) and from nested
Hsbk registers. -/

/-- Field kinds used by payload schemas: the byte-aligned LifxType kinds the
generic codec supports (unsigned integers, char bytes, signed 16-bit,
float32) and nested Hsbk registers. -/
inductive FieldKind
  | u8
  | u16
  | u32
  | u64
  | char
  | s16
  | f32
  | hsbk
deriving Repr, DecidableEq

/-- Width of one item of the kind in bytes (for hsbk, len of the struct). -/
def FieldKind.nbytes : FieldKind → Nat
  | .u8 => 1
  | .u16 => 2
  | .u32 => 4
  | .u64 => 8
  | .char => 1
  | .s16 => 2
  | .f32 => 4
  | .hsbk => 8

/-- True for the plain unsigned integer kinds (struct formats B, H, I, Q). -/
def FieldKind.isInt : FieldKind → Bool
  | .u8 => true
  | .u16 => true
  | .u32 => true
  | .u64 => true
  | _ => false

/-- True for the kinds whose wire form is their unsigned byte values: the
unsigned integer kinds and char (format c packs the byte of a length-one
bytes object). -/
def FieldKind.packsBytes : FieldKind → Bool
  | .u8 => true
  | .u16 => true
  | .u32 => true
  | .u64 => true
  | .char => true
  | _ => false

/-- One register description: name, type, number of items. -/
structure Field where
  name : String
  kind : FieldKind
  count : Nat
deriving Repr, DecidableEq

/-- A registers table. -/
abbrev Schema := List Field

/-- A stored register value: a list of unsigned integers (or char bytes), a
list of signed integers, a list of Python floats represented by their IEEE754
binary64 bit patterns, or a list of Hsbk values. -/
inductive RegVal
  | ints (vs : List Nat)
  | sints (vs : List Int)
  | floats (vs : List Nat)
  | hsbks (vs : List HsbkV)
deriving Repr, DecidableEq

/-- Does the pattern start the character list. -/
def charsStartWith : List Char → List Char → Bool
  | [], _ => true
  | _ :: _, [] => false
  | p :: ps, c :: cs => p == c && charsStartWith ps cs

/-- Does the pattern occur anywhere in the character list. -/
def charsContain (pat : List Char) : List Char → Bool
  | [] => charsStartWith pat []
  | c :: cs => charsStartWith pat (c :: cs) || charsContain pat cs

/-- Python test whether the substring reserved occurs in the register name. -/
def isReservedName (s : String) : Bool := charsContain "reserved".toList s.toList

/-- The all-zero value a reserved register is forced to (Python writes the
int list [0]*len; the zeros are represented in the value kind the register
stores). -/
def zeroVal (f : Field) : RegVal :=
  match f.kind with
  | .s16 => .sints (List.replicate f.count 0)
  | .f32 => .floats (List.replicate f.count 0)
  | _ => .ints (List.replicate f.count 0)

/-- Number of stored items of a register value. -/
def regValLen : RegVal → Nat
  | .ints vs => vs.length
  | .sints vs => vs.length
  | .floats vs => vs.length
  | .hsbks vs => vs.length

/-- Index of the register with the given (lower-case) name. -/
def findReg (schema : Schema) (name : String) : Option Nat :=
  schema.findIdx? (fun f => f.name = name)

/-- Errors LifxStruct.set_value can raise. -/
inductive SetError
  | keyError
  | lengthMismatch
  | idxNone
deriving Repr, DecidableEq

/-- Write a scalar into position j of a register value. -/
def regValSetAt (r : RegVal) (j v : Nat) : RegVal :=
  match r with
  | .ints vs => .ints (vs.set j v)
  | .sints vs => .sints (vs.set j (v : Int))
  | .floats vs => .floats (vs.set j v)
  | .hsbks vs => .hsbks vs

/-- LifxStruct.set_value with a scalar value: unknown names raise KeyError;
reserved registers are forced to all-zero; for a length-one register the
index is forced to zero, otherwise a missing index raises ValueError. The
value itself is stored without any numeric range check. -/
def set_value_scalar (schema : Schema) (vals : List RegVal) (name : String)
    (v : Nat) (idx : Option Nat) : Except SetError (List RegVal) :=
  match findReg schema name with
  | none => Except.error .keyError
  | some i =>
    let f := schema.getD i ⟨"", .u8, 0⟩
    if isReservedName f.name then
      Except.ok (vals.set i (zeroVal f))
    else
      match (if f.count = 1 then some 0 else idx) with
      | none => Except.error .idxNone
      | some j => Except.ok (vals.set i (regValSetAt (vals.getD i (.ints [])) j v))

/-- LifxStruct.set_value with a list value: unknown names raise KeyError;
reserved registers are forced to all-zero; a list whose length differs from
the register length raises ValueError. No numeric range check is done. -/
def set_value_list (schema : Schema) (vals : List RegVal) (name : String)
    (value : RegVal) : Except SetError (List RegVal) :=
  match findReg schema name with
  | none => Except.error .keyError
  | some i =>
    let f := schema.getD i ⟨"", .u8, 0⟩
    let value := if isReservedName f.name then zeroVal f else value
    if regValLen value ≠ f.count then Except.error .lengthMismatch
    else Except.ok (vals.set i value)

/-- Byte encoding of a list of Hsbk values. -/
def hsbkListToBytes : List HsbkV → Option (List Nat)
  | [] => some []
  | h :: hs => do
      let b ← hsbkToBytes h
      let rest ← hsbkListToBytes hs
      pure (b ++ rest)

/-- Byte decoding of count Hsbk values. -/
def hsbkListFromBytes : Nat → List Nat → Option (List HsbkV)
  | 0, _ => some []
  | c + 1, bs => do
      let h ← hsbkFromBytes (bs.take 8)
      let rest ← hsbkListFromBytes c (bs.drop 8)
      pure (h :: rest)

/-- Python struct.pack of one signed 16-bit value (format h) as its two
little-endian two-complement bytes; struct.error when out of range. -/
def packS16 (v : Int) : Option (List Nat) :=
  if -(2 ^ 15) ≤ v ∧ v < 2 ^ 15 then some (natToLE 2 (v % (2 ^ 16 : Int)).toNat) else none

/-- Python struct.pack of a list of signed 16-bit values. -/
def packS16List : List Int → Option (List Nat)
  | [] => some []
  | v :: vs => do
      let b ← packS16 v
      let rest ← packS16List vs
      pure (b ++ rest)

/-- Python struct.unpack of one signed 16-bit value. -/
def unpackS16 (bs : List Nat) : Int :=
  let w := leToNat bs
  if w < 2 ^ 15 then (w : Int) else (w : Int) - 2 ^ 16

/-- Python struct.unpack of count signed 16-bit values. -/
def unpackS16s : Nat → List Nat → List Int
  | 0, _ => []
  | c + 1, bs => unpackS16 (bs.take 2) :: unpackS16s c (bs.drop 2)

/-- Index of the most significant set bit (floor of the base-two logarithm),
computed with explicit fuel so that it evaluates by reduction; the fuel
covers every value below 2 to the fuel. -/
def msbIdx : Nat → Nat → Nat
  | 0, _ => 0
  | fuel + 1, n => if n < 2 then 0 else msbIdx fuel (n / 2) + 1

/-- Exact widening of an IEEE754 binary32 bit pattern to a binary64 bit
pattern (struct.unpack of format f returns a Python float, a C double):
infinities and NaNs keep exponent all-ones with the payload shifted up,
subnormal singles are normalized into normal doubles, normal singles have
the exponent rebiased and the mantissa widened by 29 zero bits. -/
def f32BitsToF64Bits (w : Nat) : Nat :=
  let sign := (w >>> 31) % 2
  let exp := (w >>> 23) % 256
  let mant := w % 2 ^ 23
  if exp = 255 then
    (sign <<< 63) ||| (2047 <<< 52) ||| (mant <<< 29)
  else if exp = 0 then
    if mant = 0 then sign <<< 63
    else
      let p := msbIdx 32 mant
      (sign <<< 63) ||| ((p + 874) <<< 52) ||| ((mant - 2 ^ p) <<< (52 - p))
  else
    (sign <<< 63) ||| ((exp + 896) <<< 52) ||| (mant <<< 29)

/-- Conversion of an IEEE754 binary64 bit pattern to the binary32 bit
pattern struct.pack of format f emits: round to nearest with ties to even; a
finite double whose rounded magnitude exceeds the largest finite single
raises OverflowError (none). A NaN is canonicalized to a quiet NaN (CPython
leaves the payload to the platform C cast). The finite value is treated as
an integer significand sig scaled by 2 to the power eRaw - 1075; a normal
single target (unbiased exponent at least -126, that is 949 ≤ msb + eRaw)
rounds sig to 24 bits, a smaller magnitude rounds onto the subnormal grid of
2 to the power -149. -/
def f64BitsToF32Bits (v : Nat) : Option Nat :=
  let sign := (v >>> 63) % 2
  let exp := (v >>> 52) % 2048
  let mant := v % 2 ^ 52
  if exp = 2047 then
    if mant = 0 then some ((sign <<< 31) ||| (255 <<< 23))
    else some ((sign <<< 31) ||| (255 <<< 23) ||| (1 <<< 22))
  else
    let eRaw := max exp 1
    let sig := if exp = 0 then mant else 2 ^ 52 + mant
    if sig = 0 then some (sign <<< 31)
    else
      let p := msbIdx 64 sig
      if 949 ≤ p + eRaw then
        let q := sig >>> 29
        let r := sig % 2 ^ 29
        let m := if 2 * r > 2 ^ 29 ∨ (2 * r = 2 ^ 29 ∧ q % 2 = 1) then q + 1 else q
        let m2 := if m = 2 ^ 24 then 2 ^ 23 else m
        let e2 := if m = 2 ^ 24 then p + eRaw - 947 else p + eRaw - 948
        if 254 < e2 then none
        else some ((sign <<< 31) ||| (e2 <<< 23) ||| (m2 - 2 ^ 23))
      else
        let sh := 926 - eRaw
        let q := sig >>> sh
        let r := sig % 2 ^ sh
        let m := if 2 * r > 2 ^ sh ∨ (2 * r = 2 ^ sh ∧ q % 2 = 1) then q + 1 else q
        some ((sign <<< 31) ||| m)

/-- Python struct.pack of one float32 value (format f): the stored double is
rounded to single precision and emitted as four little-endian bytes. -/
def packF32 (v : Nat) : Option (List Nat) :=
  (f64BitsToF32Bits v).map (natToLE 4)

/-- Python struct.pack of a list of float32 values. -/
def packF32List : List Nat → Option (List Nat)
  | [] => some []
  | v :: vs => do
      let b ← packF32 v
      let rest ← packF32List vs
      pure (b ++ rest)

/-- Python struct.unpack of count float32 values, each widened exactly back
to a Python float (binary64). -/
def unpackF32s : Nat → List Nat → List Nat
  | 0, _ => []
  | c + 1, bs => f32BitsToF64Bits (leToNat (bs.take 4)) :: unpackF32s c (bs.drop 4)

/-- Generic LifxStruct.to_bytes for one register: integer kinds go through
struct.pack (which raises for out-of-range values or an item count that does
not match the register length); nested Hsbk registers are encoded item by
item with the Hsbk byte encoding. -/
def encodeField (f : Field) (v : RegVal) : Option (List Nat) :=
  match f.kind, v with
  | .hsbk, .hsbks vs => if vs.length = f.count then hsbkListToBytes vs else none
  | .s16, .sints vs => if vs.length = f.count then packS16List vs else none
  | .f32, .floats vs => if vs.length = f.count then packF32List vs else none
  | .hsbk, _ => none
  | .s16, _ => none
  | .f32, _ => none
  | k, .ints vs => if vs.length = f.count then packUintList k.nbytes vs else none
  | _, _ => none

/-- Generic LifxStruct.from_bytes for one register chunk: struct.unpack
raises when the chunk is shorter than the register needs. -/
def decodeField (f : Field) (bs : List Nat) : Option RegVal :=
  if bs.length < f.kind.nbytes * f.count then none
  else match f.kind with
    | .hsbk => (hsbkListFromBytes f.count bs).map RegVal.hsbks
    | .s16 => some (.sints (unpackS16s f.count bs))
    | .f32 => some (.floats (unpackF32s f.count bs))
    | k => some (.ints (unpackInts k.nbytes f.count bs))

/-- Generic LifxStruct.to_bytes: register encodings concatenated in order. -/
def structToBytes : Schema → List RegVal → Option (List Nat)
  | [], [] => some []
  | f :: fs, v :: vs => do
      let b ← encodeField f v
      let rest ← structToBytes fs vs
      pure (b ++ rest)
  | _, _ => none

/-- Generic LifxStruct.from_bytes, register decoding pass: the byte string is
consumed register by register. -/
def structFromBytesRaw : Schema → List Nat → Option (List RegVal)
  | [], _ => some []
  | f :: fs, bs => do
      let n := f.kind.nbytes * f.count
      let v ← decodeField f (bs.take n)
      let rest ← structFromBytesRaw fs (bs.drop n)
      pure (v :: rest)

/-- Constructor pass applied to the decoded registers: set_value forces
reserved registers to all-zero. -/
def structInit : Schema → List RegVal → List RegVal
  | [], _ => []
  | _ :: _, [] => []
  | f :: fs, v :: vs => (if isReservedName f.name then zeroVal f else v) :: structInit fs vs

/-- Generic LifxStruct.from_bytes: decode the registers, then construct the
instance (which pins reserved registers). -/
def structFromBytes (schema : Schema) (bs : List Nat) : Option (List RegVal) :=
  (structFromBytesRaw schema bs).map (structInit schema)

/-- Byte length of a schema (get_size_bytes): all supported kinds are
byte-aligned, so the bit sum divided by eight is the byte sum. -/
def schemaNBytes (s : Schema) : Nat := (s.map (fun f => f.kind.nbytes * f.count)).sum

/-- A message payload: the protocol-header type code of its class together
with its registers table and stored values. -/
structure Payload where
  type : Nat
  schema : Schema
  vals : List RegVal
deriving Repr, DecidableEq

/-- Decoded packet (class LifxResponse). -/
structure LifxResponse where
  frame : Frame
  frame_address : FrameAddress
  protocol_header : ProtocolHeader
  payload : Payload
deriving Repr, DecidableEq

/-- Errors PacketComm.decode_bytes can raise: struct.error on truncated
input, the three RuntimeError mismatches, KeyError for an unregistered
message type, and ValueError from payload construction (kelvin bounds). -/
inductive DecodeError
  | truncated
  | sizeMismatch
  | sourceMismatch
  | sequenceMismatch
  | unknownType
  | badPayload
deriving Repr, DecidableEq

/-- Check of an optional nominal value against a received value. -/
def mismatches (expected : Option Nat) (received : Nat) : Bool :=
  match expected with
  | none => false
  | some e => received != e

/-- PacketComm.decode_bytes: decode the Frame from the first 8 bytes, check
the declared size against the actual byte count, check the nominal source,
decode the FrameAddress from bytes 8..24, check the nominal sequence, decode
the ProtocolHeader from bytes 24..36, look the type up in the message-type
registry, and decode the payload from the remaining bytes. -/
def decode_bytes (registry : Nat → Option Schema) (bs : List Nat)
    (nominalSource nominalSequence : Option Nat) : Except DecodeError LifxResponse :=
  if bs.length < 8 then Except.error .truncated
  else
    let frame := Frame.from_bytes (bs.take 8)
    if bs.length ≠ frame.size then Except.error .sizeMismatch
    else if mismatches nominalSource frame.source then Except.error .sourceMismatch
    else if bs.length < 24 then Except.error .truncated
    else
      let fa := FrameAddress.from_bytes ((bs.drop 8).take 16)
      if mismatches nominalSequence fa.sequence then Except.error .sequenceMismatch
      else if bs.length < 36 then Except.error .truncated
      else
        let ph := ProtocolHeader.from_bytes ((bs.drop 24).take 12)
        match registry ph.type with
        | none => Except.error .unknownType
        | some schema =>
          let n := schemaNBytes schema
          if bs.length < 36 + n then Except.error .truncated
          else match structFromBytes schema ((bs.drop 36).take n) with
            | none => Except.error .badPayload
            | some vals => Except.ok ⟨frame, fa, ph, ⟨ph.type, schema, vals⟩⟩

/-- PacketComm.get_bytes_and_source: build the FrameAddress (target from the
mac address when one is given, else the zero default), require a non-zero
payload type, build the ProtocolHeader and the Frame (tagged is set when a
mac address is given or the payload is GetService, type code 2; size is the
byte length of the four components) and concatenate the four byte encodings.
The source is modelled as caller-supplied (the Python default is the process
id). -/
def get_bytes_and_source (payload : Payload) (macAddr : Option (List Nat))
    (resRequired ackRequired : Bool) (sequence source : Nat) :
    Option (List Nat × Nat) :=
  let target := macAddr.getD (List.replicate 8 0)
  if target.length ≠ 8 then none
  else if payload.type = 0 then none
  else
    let fa : FrameAddress := ⟨target, List.replicate 6 0, resRequired, ackRequired, 0, sequence⟩
    let ph : ProtocolHeader := ⟨0, payload.type, 0⟩
    let tagged := macAddr.isSome || payload.type == 2
    let size := 8 + 16 + 12 + schemaNBytes payload.schema
    let frame : Frame := ⟨size, 1024, true, tagged, 0, source⟩
    do
      let frameBytes ← frame.to_bytes
      let faBytes ← fa.to_bytes
      let phBytes ← ph.to_bytes
      let payloadBytes ← structToBytes payload.schema payload.vals
      pure (frameBytes ++ faBytes ++ phBytes ++ payloadBytes, frame.source)

/-- Receive path of PacketComm.send_recv: the received datagram is decoded
with the nominal source of this request and its sequence; decode_bytes
errors propagate to the caller unhandled (there is no retry loop around the
decode in this method). -/
def send_recv_response (registry : Nat → Option Schema) (recvBytes : List Nat)
    (source sequence : Nat) : Except DecodeError LifxResponse :=
  decode_bytes registry recvBytes (some source) (some sequence)

/-! DeviceManager (device_manager.py): product classification and the
discovery aggregation loop. -/

/-- Feature flags of a product entry in the products database. -/
structure ProductFeatures where
  multizone : Bool
  matrix : Bool
  infrared : Bool
deriving Repr, DecidableEq

/-- Device-control variants a discovered product is classified into. -/
inductive DeviceClass
  | multizone
  | tile
  | infrared
  | light
deriving Repr, DecidableEq

/-- DeviceManager.get_product_info classification chain: multizone first,
then matrix, then infrared, else a plain light. -/
def get_product_class (features : ProductFeatures) : DeviceClass :=
  if features.multizone then .multizone
  else if features.matrix then .tile
  else if features.infrared then .infrared
  else .light

/-- Python dict assignment d[k] = v: an existing key keeps its position and
gets the new value, a new key is appended. -/
def dictSet {R : Type} (d : List (String × R)) (k : String) (v : R) :
    List (String × R) :=
  if d.any (fun p => p.1 == k) then
    d.map (fun p => if p.1 == k then (k, v) else p)
  else d ++ [(k, v)]

/-- Python dict lookup d.get(k). -/
def dictGet {R : Type} : List (String × R) → String → Option R
  | [], _ => none
  | p :: rest, k => if p.1 == k then some p.2 else dictGet rest k

/-- DeviceManager.discover aggregation: each retry round yields StateService
responses tagged with the responder IP, and each one is written into the
state-service dict keyed by that IP. -/
def discoverAggregate {R : Type} (rounds : List (List (String × R))) :
    List (String × R) :=
  rounds.foldl (fun d responses => responses.foldl (fun d2 r => dictSet d2 r.1 r.2) d) []

/-- The most recently received response for a key in a response list: a later
entry with the key takes precedence over earlier ones. -/
def lastWithKey {R : Type} : List (String × R) → String → Option R
  | [], _ => none
  | p :: rest, k =>
    match lastWithKey rest k with
    | some v => some v
    | none => if p.1 == k then some p.2 else none

/-- Number of entries of a dict holding the given key. -/
def countKey {R : Type} (d : List (String × R)) (k : String) : Nat :=
  (d.filter (fun p => p.1 == k)).length

/-! Well-formedness of stored payload values: lengths match the registers
table, integers fit their widths, Hsbk values fit u16 and satisfy the kelvin
invariant, and reserved registers hold zeros (as set_value forces them to). -/

/-- An Hsbk value as an Hsbk instance stores it. -/
def hsbkWF (h : HsbkV) : Bool :=
  h.hue < 2 ^ 16 && h.saturation < 2 ^ 16 && h.brightness < 2 ^ 16 &&
    h.kelvin < 2 ^ 16 && (h.kelvin == 0 || (2500 ≤ h.kelvin && h.kelvin ≤ 9000))

/-- A register value as a constructed instance stores it. Float32 registers
are never well-formed here: decoding hands back the float32-rounded double,
so they do not round-trip (see the counterexample at the stored double 0.1)
and the round-trip theorem excludes them. -/
def fieldWF (f : Field) (v : RegVal) : Bool :=
  match f.kind, v with
  | .hsbk, .hsbks vs => vs.length == f.count && vs.all hsbkWF
  | .s16, .sints vs =>
      vs.length == f.count && vs.all (fun x => -(2 ^ 15) ≤ x && x < 2 ^ 15)
  | .hsbk, _ => false
  | .s16, _ => false
  | .f32, _ => false
  | k, .ints vs => vs.length == f.count && vs.all (fun x => x < 2 ^ (8 * k.nbytes))
  | _, _ => false

/-- The full value store of a constructed instance. -/
def structWF : Schema → List RegVal → Bool
  | [], [] => true
  | f :: fs, v :: vs =>
      fieldWF f v && (!isReservedName f.name || v == zeroVal f) && structWF fs vs
  | _, _ => false

/-! Concrete instances used by counterexamples and witnesses. -/

/-- Registers table of light_messages.SetColor. -/
def setColorSchema : Schema :=
  [⟨"reserved", .u8, 1⟩, ⟨"color", .hsbk, 1⟩, ⟨"duration", .u32, 1⟩]

/-- The green-light SetColor payload of the packet test. -/
def setColorPayload : Payload :=
  ⟨102, setColorSchema, [.ints [0], .hsbks [⟨21845, 65535, 65535, 3500⟩], .ints [1024]]⟩

/-- An Acknowledgement payload (type 45, empty registers table). -/
def ackPayload : Payload := ⟨45, [], []⟩

/-- A registry holding the message types these instances use. -/
def sampleRegistry : Nat → Option Schema := fun t =>
  if t == 102 then some setColorSchema
  else if t == 45 then some ([] : Schema)
  else none

/-- The all-zero mac address of the packet test (00:00:00:00:00:00). -/
def macZero : List Nat := List.replicate 8 0

/-- Wire bytes of an Acknowledgement packet with source 1 and sequence 0. -/
def ackBytesSourceOne : List Nat :=
  [36, 0, 0, 20, 1, 0, 0, 0,
   0, 0, 0, 0, 0, 0, 0, 0, 0, 0, 0, 0, 0, 0, 0, 0,
   0, 0, 0, 0, 0, 0, 0, 0, 45, 0, 0, 0]

/-- Single-register schema used by the set_value theorems. -/
def levelSchema : Schema := [⟨"level", .u16, 1⟩]

/-- Registers table of light_messages.SetWaveform (type 103): reserved u8,
transient u8, color Hsbk, period u32, cycles f32, skew_ratio s16,
waveform u8. -/
def setWaveformSchema : Schema :=
  [⟨"reserved", .u8, 1⟩, ⟨"transient", .u8, 1⟩, ⟨"color", .hsbk, 1⟩,
   ⟨"period", .u32, 1⟩, ⟨"cycles", .f32, 1⟩, ⟨"skew_ratio", .s16, 1⟩,
   ⟨"waveform", .u8, 1⟩]

/-- A SetWaveform payload whose cycles register stores the Python float 0.1
(binary64 bit pattern 0x3FB999999999999A), a value not representable in
single precision. -/
def setWaveformPayload : Payload :=
  ⟨103, setWaveformSchema,
   [.ints [0], .ints [1], .hsbks [⟨21845, 65535, 65535, 3500⟩],
    .ints [1024], .floats [0x3FB999999999999A], .sints [0], .ints [0]]⟩

/-- A registry holding the SetWaveform message type. -/
def waveRegistry : Nat → Option Schema := fun t =>
  if t == 103 then some setWaveformSchema else none

end Lifx

namespace Lifx

/-! Helper lemmas about the byte primitives. -/

theorem natToLE_length (n v : Nat) : (natToLE n v).length = n := by
  induction n generalizing v with
  | zero => rfl
  | succ m ih => simp [natToLE, ih]

theorem leToNat_natToLE {n v : Nat} (h : v < 2 ^ (8 * n)) :
    leToNat (natToLE n v) = v := by
  induction n generalizing v with
  | zero =>
    have : v = 0 := by simpa using h
    simp [this, natToLE, leToNat]
  | succ m ih =>
    have hdiv : v / 256 < 2 ^ (8 * m) := by
      have h2 : v < 2 ^ (8 * m) * 256 := by
        have : 8 * (m + 1) = 8 * m + 8 := by ring
        calc v < 2 ^ (8 * (m + 1)) := h
        _ = 2 ^ (8 * m) * 256 := by rw [this, pow_add]; norm_num
      omega
    simp only [natToLE, leToNat, ih hdiv]
    omega

theorem packUint_eq {n v : Nat} (h : v < 2 ^ (8 * n)) :
    packUint n v = some (natToLE n v) := by
  simp [packUint, h]

theorem take_len_append {α : Type} (l1 l2 : List α) :
    (l1 ++ l2).take l1.length = l1 := by
  induction l1 with
  | nil => rfl
  | cons a t ih => simp [ih]

theorem drop_len_append {α : Type} (l1 l2 : List α) :
    (l1 ++ l2).drop l1.length = l2 := by
  induction l1 with
  | nil => rfl
  | cons a t ih => simp [ih]

theorem take_append_of_len {α : Type} {l1 : List α} (l2 : List α) {n : Nat}
    (h : l1.length = n) : (l1 ++ l2).take n = l1 := by
  subst h; exact take_len_append l1 l2

theorem drop_append_of_len {α : Type} {l1 : List α} (l2 : List α) {n : Nat}
    (h : l1.length = n) : (l1 ++ l2).drop n = l2 := by
  subst h; exact drop_len_append l1 l2

/-! Frame lemmas. -/

theorem frame_from_bytes_fields (bs : List Nat) :
    Frame.from_bytes bs =
      ⟨leToNat (bs.take 2), 1024, true,
        ((leToNat ((bs.drop 2).take 2) >>> 12 >>> 1) % (1 <<< 1)) != 0, 0,
        leToNat ((bs.drop 4).take 4)⟩ := rfl

theorem frame_to_bytes_eq (size : Nat) (tagged : Bool) (source : Nat)
    (hs : size < 2 ^ 16) (hsrc : source < 2 ^ 32) :
    (Frame.mk size 1024 true tagged 0 source).to_bytes =
      some (natToLE 2 size ++ natToLE 2 (if tagged then 13312 else 5120) ++
        natToLE 4 source) := by
  have h16 : size < 2 ^ (8 * 2) := by norm_num; omega
  have h32 : source < 2 ^ (8 * 4) := by norm_num; omega
  cases tagged
  · have hbf : ((1024 : Nat) ||| (Bool.toNat true <<< 12) ||| (Bool.toNat false <<< 13) |||
        (0 <<< 14)) = 5120 := by decide
    simp only [Frame.to_bytes, hbf, if_false]
    rw [packUint_eq h16, packUint_eq h32,
      packUint_eq (show (5120 : Nat) < 2 ^ (8 * 2) by norm_num)]
    rfl
  · have hbf : ((1024 : Nat) ||| (Bool.toNat true <<< 12) ||| (Bool.toNat true <<< 13) |||
        (0 <<< 14)) = 13312 := by decide
    simp only [Frame.to_bytes, hbf, if_true]
    rw [packUint_eq h16, packUint_eq h32,
      packUint_eq (show (13312 : Nat) < 2 ^ (8 * 2) by norm_num)]
    rfl

theorem frame_round_aux (size c source : Nat) (h16 : size < 2 ^ (8 * 2))
    (hcr : c < 2 ^ (8 * 2)) (h32 : source < 2 ^ (8 * 4)) (rest : List Nat) :
    Frame.from_bytes (((natToLE 2 size ++ natToLE 2 c ++ natToLE 4 source) ++ rest).take 8) =
      ⟨size, 1024, true, ((c >>> 12 >>> 1) % (1 <<< 1)) != 0, 0, source⟩ := by
  have hlen : (natToLE 2 size ++ natToLE 2 c ++ natToLE 4 source).length = 8 := by
    simp [natToLE_length]
  rw [take_append_of_len rest hlen, frame_from_bytes_fields]
  have hassoc : natToLE 2 size ++ natToLE 2 c ++ natToLE 4 source =
      natToLE 2 size ++ (natToLE 2 c ++ natToLE 4 source) := by
    rw [List.append_assoc]
  rw [hassoc]
  have ht2 : (natToLE 2 size ++ (natToLE 2 c ++ natToLE 4 source)).take 2 = natToLE 2 size :=
    take_append_of_len _ (natToLE_length 2 size)
  have hd2 : (natToLE 2 size ++ (natToLE 2 c ++ natToLE 4 source)).drop 2 =
      natToLE 2 c ++ natToLE 4 source :=
    drop_append_of_len _ (natToLE_length 2 size)
  have hd4 : (natToLE 2 size ++ (natToLE 2 c ++ natToLE 4 source)).drop 4 =
      natToLE 4 source := by
    have h4 : (4 : Nat) = 2 + 2 := rfl
    rw [h4, ← List.drop_drop, hd2]
    exact drop_append_of_len _ (natToLE_length 2 c)
  rw [ht2, hd2, hd4]
  rw [take_append_of_len _ (natToLE_length 2 c)]
  rw [List.take_of_length_le (by rw [natToLE_length] : (natToLE 4 source).length ≤ 4)]
  rw [leToNat_natToLE h16, leToNat_natToLE hcr, leToNat_natToLE h32]

theorem frame_round (size : Nat) (tagged : Bool) (source : Nat)
    (hs : size < 2 ^ 16) (hsrc : source < 2 ^ 32) (rest : List Nat) :
    Frame.from_bytes (((natToLE 2 size ++ natToLE 2 (if tagged then 13312 else 5120) ++
        natToLE 4 source) ++ rest).take 8) =
      ⟨size, 1024, true, tagged, 0, source⟩ := by
  have h16 : size < 2 ^ (8 * 2) := by norm_num; omega
  have h32 : source < 2 ^ (8 * 4) := by norm_num; omega
  cases tagged
  · rw [if_neg (by simp)]
    rw [frame_round_aux size 5120 source h16 (by norm_num) h32 rest]
    have hbit : ((((5120 : Nat) >>> 12 >>> 1) % (1 <<< 1)) != 0) = false := by decide
    rw [hbit]
  · rw [if_pos rfl]
    rw [frame_round_aux size 13312 source h16 (by norm_num) h32 rest]
    have hbit : ((((13312 : Nat) >>> 12 >>> 1) % (1 <<< 1)) != 0) = true := by decide
    rw [hbit]

/-! Claim C7: Frame encode scenario. -/

/-- C7: encoding a Frame with tagged true, size 49 and source 0 (built through
set_value, as the packet test does) produces exactly the eight bytes
0x31 00 00 34 00 00 00 00: size little-endian in bytes 0-1, then the 16-bit
word packing protocol 1024 in bits 0-11, addressable at bit 12, tagged at
bit 13, origin 0 at bits 14-15, then source little-endian in bytes 4-7. -/
theorem c7_frame_green_light_bytes :
    (((Frame.init 0 0).set_value .tagged 1).set_value .size 49).to_bytes =
      some [0x31, 0x00, 0x00, 0x34, 0x00, 0x00, 0x00, 0x00] := by decide

/-! Claim C10: Frame decoding pins protocol, addressable and origin. -/

/-- C10: for every 8-byte input, Frame.from_bytes returns a Frame whose
protocol is 1024, addressable is true and origin is 0 regardless of the wire
bits, while size, tagged and source reflect the input: size is the
little-endian value of bytes 0-1, tagged is bit 13 of the 16-bit word at
bytes 2-3, source is the little-endian value of bytes 4-7. The pinned wire
bits are silently normalized, never rejected (from_bytes is total). -/
theorem c10_frame_decode_pins (bs : List Nat) (h : bs.length = 8) :
    (Frame.from_bytes bs).protocol = 1024 ∧
    (Frame.from_bytes bs).addressable = true ∧
    (Frame.from_bytes bs).origin = 0 ∧
    (Frame.from_bytes bs).size = leToNat (bs.take 2) ∧
    (Frame.from_bytes bs).tagged = ((leToNat ((bs.drop 2).take 2) >>> 13) % 2 != 0) ∧
    (Frame.from_bytes bs).source = leToNat ((bs.drop 4).take 4) := by
  rw [frame_from_bytes_fields]
  refine ⟨rfl, rfl, rfl, rfl, ?_, rfl⟩
  have hsh : leToNat ((bs.drop 2).take 2) >>> 12 >>> 1 = leToNat ((bs.drop 2).take 2) >>> 13 := by
    rw [← Nat.shiftRight_add]
  simp only [hsh]
  rfl

/-- Witness for C10 at a concrete 8-byte input. -/
theorem c10_witness :
    ([1, 2, 3, 4, 5, 6, 7, 8] : List Nat).length = 8 ∧
      (Frame.from_bytes [1, 2, 3, 4, 5, 6, 7, 8]).protocol = 1024 :=
  ⟨by decide, (c10_frame_decode_pins [1, 2, 3, 4, 5, 6, 7, 8] (by decide)).1⟩

/-! Claim C8: device classification priority. -/

/-- C8 counterexample: a product whose features have both matrix and
multizone set is classified as the multizone variant, not the matrix/tile
variant the claim states. -/
theorem c8_counterexample :
    get_product_class ⟨true, true, false⟩ = DeviceClass.multizone ∧
      get_product_class ⟨true, true, false⟩ ≠ DeviceClass.tile := by decide

/-- C8 amended: the classification priority is multizone over matrix over
infrared over plain light, exhaustively over all feature combinations. -/
theorem c8_priority_multizone_first :
    get_product_class ⟨true, true, true⟩ = DeviceClass.multizone ∧
    get_product_class ⟨true, true, false⟩ = DeviceClass.multizone ∧
    get_product_class ⟨true, false, true⟩ = DeviceClass.multizone ∧
    get_product_class ⟨true, false, false⟩ = DeviceClass.multizone ∧
    get_product_class ⟨false, true, true⟩ = DeviceClass.tile ∧
    get_product_class ⟨false, true, false⟩ = DeviceClass.tile ∧
    get_product_class ⟨false, false, true⟩ = DeviceClass.infrared ∧
    get_product_class ⟨false, false, false⟩ = DeviceClass.light := by decide

/-! Claim C6: kelvin bounds. -/

/-- C6: setting the kelvin register of an Hsbk succeeds exactly when the
value is zero or lies in 2500..9000; in particular 2499 and 9001 fail with
the out-of-range error while 0, 2500 and 9000 succeed. -/
theorem c6_kelvin_bound (h : HsbkV) (v : Nat) :
    (∃ h2, h.set_value HsbkField.kelvin v = Except.ok h2) ↔
      v = 0 ∨ (2500 ≤ v ∧ v ≤ 9000) := by
  unfold HsbkV.set_value
  split
  · next hcond =>
    constructor
    · rintro ⟨h2, heq⟩
      exact absurd heq (by simp)
    · intro hv
      obtain ⟨-, hne, hrange⟩ := hcond
      omega
  · next hcond =>
    constructor
    · intro _
      have hcond2 : ¬ (v ≠ 0 ∧ (v < 2500 ∨ 9000 < v)) := fun hx => hcond ⟨rfl, hx⟩
      omega
    · intro _
      exact ⟨_, rfl⟩

/-! Claim C3: where numeric bounds are enforced. -/

/-- C3 counterexample: on a u16 register, set_value with the value 2 to the
16 succeeds and stores the out-of-range value, instead of failing with an
out-of-range error as the claim states; the stored value violates the
claimed invariant. -/
theorem c3_counterexample :
    set_value_scalar levelSchema [RegVal.ints [0]] "level" (2 ^ 16) none =
      Except.ok [RegVal.ints [2 ^ 16]] ∧ ¬ (2 ^ 16 : Nat) < 2 ^ 16 := by
  exact ⟨rfl, by omega⟩

/-- C3 amended: set_value performs no numeric range check and stores any
value; the out-of-range failure surfaces at encode time instead, where
struct packing of 2 to the bit width fails and of 2 to the bit width minus
one succeeds, for every unsigned integer field kind. -/
theorem c3_bounds_checked_at_encode (k : FieldKind) (v : Nat) (h : k.isInt = true) :
    set_value_scalar [⟨"x", k, 1⟩] [RegVal.ints [0]] "x" v none =
      Except.ok [RegVal.ints [v]] ∧
    encodeField ⟨"x", k, 1⟩ (RegVal.ints [2 ^ (8 * k.nbytes)]) = none ∧
    encodeField ⟨"x", k, 1⟩ (RegVal.ints [2 ^ (8 * k.nbytes) - 1]) =
      some (natToLE k.nbytes (2 ^ (8 * k.nbytes) - 1)) := by
  refine ⟨rfl, ?_, ?_⟩ <;> cases k <;> first | decide | exact absurd h (by decide)

/-- Witness for C3 amended at the u16 kind and a concrete value. -/
theorem c3_witness :
    FieldKind.isInt FieldKind.u16 = true ∧
      set_value_scalar [⟨"x", FieldKind.u16, 1⟩] [RegVal.ints [0]] "x" 12345 none =
        Except.ok [RegVal.ints [12345]] :=
  ⟨by decide, (c3_bounds_checked_at_encode FieldKind.u16 12345 (by decide)).1⟩

/-! Packing lemmas for register lists. -/

theorem natToLE_one (v : Nat) : natToLE 1 v = [v % 256] := rfl

theorem leToNat_single (v : Nat) : leToNat [v] = v := by
  simp [leToNat]

theorem packUintList_bytes {n : Nat} {vs : List Nat} (h : ∀ v ∈ vs, v < 2 ^ (8 * n)) :
    ∃ bs, packUintList n vs = some bs ∧ bs.length = n * vs.length ∧
      (∀ rest, unpackInts n vs.length (bs ++ rest) = vs) := by
  induction vs with
  | nil => exact ⟨[], rfl, by simp, fun rest => rfl⟩
  | cons v vs ih =>
    have hv : v < 2 ^ (8 * n) := h v (List.mem_cons_self v vs)
    obtain ⟨bs, hbs, hlen, hdec⟩ := ih (fun x hx => h x (List.mem_cons_of_mem v hx))
    refine ⟨natToLE n v ++ bs, ?_, ?_, ?_⟩
    · simp [packUintList, packUint_eq hv, hbs]
    · simp [natToLE_length, hlen]; ring
    · intro rest
      simp only [unpackInts, List.append_assoc]
      rw [take_append_of_len _ (natToLE_length n v), drop_append_of_len _ (natToLE_length n v),
        leToNat_natToLE hv, hdec rest]

theorem packUintList_one {vs : List Nat} (h : ∀ v ∈ vs, v < 256) :
    packUintList 1 vs = some vs := by
  induction vs with
  | nil => rfl
  | cons v vs ih =>
    have hv : v < 256 := h v (List.mem_cons_self v vs)
    have hv2 : v < 2 ^ (8 * 1) := by omega
    simp [packUintList, packUint_eq hv2, ih (fun x hx => h x (List.mem_cons_of_mem v hx)),
      natToLE_one, Nat.mod_eq_of_lt hv]

/-! FrameAddress lemmas. -/

theorem frameAddress_to_bytes_eq (target : List Nat) (res ack : Bool) (seq : Nat)
    (hlen : target.length = 8) (hb : ∀ b ∈ target, b < 256) (hseq : seq < 256) :
    (FrameAddress.mk target (List.replicate 6 0) res ack 0 seq).to_bytes =
      some (target ++ List.replicate 6 0 ++ [res.toNat ||| (ack.toNat <<< 1)] ++ [seq]) := by
  have hseq2 : seq < 2 ^ (8 * 1) := by omega
  have hbf : (res.toNat ||| (ack.toNat <<< 1)) < 2 ^ (8 * 1) := by
    cases res <;> cases ack <;> decide
  have hres : ∀ b ∈ List.replicate 6 (0 : Nat), b < 256 := by
    intro b hbm
    have := List.eq_of_mem_replicate hbm
    omega
  simp only [FrameAddress.to_bytes, hlen, if_pos, packUintList_one hb, packUintList_one hres,
    List.length_replicate, packUint_eq hseq2, packUint_eq hbf, natToLE_one,
    Nat.mod_eq_of_lt hseq, Nat.mod_eq_of_lt (show (res.toNat ||| (ack.toNat <<< 1)) < 256 by
      cases res <;> cases ack <;> decide)]
  simp [List.append_assoc]

theorem frameAddress_from_bytes_concrete (target : List Nat) (bf seq : Nat)
    (hlen : target.length = 8) (rest : List Nat) :
    FrameAddress.from_bytes (((target ++ List.replicate 6 0 ++ [bf] ++ [seq]) ++ rest).take 16) =
      ⟨target, List.replicate 6 0, bf % 2 != 0, bf / 2 != 0, 0, seq⟩ := by
  have hL : (target ++ List.replicate 6 0 ++ [bf] ++ [seq]).length = 16 := by
    simp [hlen]
  rw [take_append_of_len rest hL]
  have hassoc : target ++ List.replicate 6 0 ++ [bf] ++ [seq] =
      (target ++ List.replicate 6 0) ++ ([bf] ++ [seq]) := by
    simp [List.append_assoc]
  have hlen14 : (target ++ List.replicate 6 0).length = 14 := by simp [hlen]
  have htake8 : (target ++ List.replicate 6 0 ++ [bf] ++ [seq]).take 8 = target := by
    rw [show target ++ List.replicate 6 0 ++ [bf] ++ [seq] =
        target ++ (List.replicate 6 0 ++ [bf] ++ [seq]) by simp [List.append_assoc]]
    exact take_append_of_len _ hlen
  have hdrop14 : (target ++ List.replicate 6 0 ++ [bf] ++ [seq]).drop 14 = [bf, seq] := by
    rw [hassoc, drop_append_of_len _ hlen14]
    rfl
  have hdrop15 : (target ++ List.replicate 6 0 ++ [bf] ++ [seq]).drop 15 = [seq] := by
    rw [show (15 : Nat) = 14 + 1 by rfl, ← List.drop_drop, hdrop14]
    rfl
  simp only [FrameAddress.from_bytes, htake8, hdrop14, hdrop15]
  have h1 : ([bf, seq].take 1) = [bf] := rfl
  have h2 : ([seq].take 1) = [seq] := rfl
  rw [h1, h2, leToNat_single, leToNat_single]

theorem frameAddress_round (target : List Nat) (res ack : Bool) (seq : Nat)
    (hlen : target.length = 8) (rest : List Nat) :
    FrameAddress.from_bytes (((target ++ List.replicate 6 0 ++
        [res.toNat ||| (ack.toNat <<< 1)] ++ [seq]) ++ rest).take 16) =
      ⟨target, List.replicate 6 0, res, ack, 0, seq⟩ := by
  rw [frameAddress_from_bytes_concrete target (res.toNat ||| (ack.toNat <<< 1)) seq hlen rest]
  have hres2 : ((res.toNat ||| (ack.toNat <<< 1)) % 2 != 0) = res := by
    cases res <;> cases ack <;> decide
  have hack2 : ((res.toNat ||| (ack.toNat <<< 1)) / 2 != 0) = ack := by
    cases res <;> cases ack <;> decide
  rw [hres2, hack2]

/-! ProtocolHeader lemmas. -/

theorem protocolHeader_to_bytes_eq (t : Nat) (ht : t < 2 ^ 16) :
    (ProtocolHeader.mk 0 t 0).to_bytes =
      some (natToLE 8 0 ++ natToLE 2 t ++ natToLE 2 0) := by
  have ht2 : t < 2 ^ (8 * 2) := by norm_num; omega
  simp only [ProtocolHeader.to_bytes, packUint_eq ht2,
    packUint_eq (show (0 : Nat) < 2 ^ (8 * 8) by norm_num),
    packUint_eq (show (0 : Nat) < 2 ^ (8 * 2) by norm_num)]
  simp [List.append_assoc]

theorem protocolHeader_round (t : Nat) (ht : t < 2 ^ 16) (rest : List Nat) :
    ProtocolHeader.from_bytes (((natToLE 8 0 ++ natToLE 2 t ++ natToLE 2 0) ++ rest).take 12) =
      ⟨0, t, 0⟩ := by
  have ht2 : t < 2 ^ (8 * 2) := by norm_num; omega
  have hL : (natToLE 8 0 ++ natToLE 2 t ++ natToLE 2 0).length = 12 := by
    simp [natToLE_length]
  rw [take_append_of_len rest hL]
  have hd8 : (natToLE 8 0 ++ natToLE 2 t ++ natToLE 2 0).drop 8 =
      natToLE 2 t ++ natToLE 2 0 := by
    rw [show natToLE 8 0 ++ natToLE 2 t ++ natToLE 2 0 =
        natToLE 8 0 ++ (natToLE 2 t ++ natToLE 2 0) by simp [List.append_assoc]]
    exact drop_append_of_len _ (natToLE_length 8 0)
  simp only [ProtocolHeader.from_bytes, hd8, take_append_of_len _ (natToLE_length 2 t),
    leToNat_natToLE ht2]

/-! Hsbk lemmas. -/

theorem hsbk_round (h : HsbkV) (hwf : hsbkWF h = true) :
    ∃ bs, hsbkToBytes h = some bs ∧ bs.length = 8 ∧
      ∀ rest, hsbkFromBytes ((bs ++ rest).take 8) = some h := by
  obtain ⟨hue, sat, bri, kel⟩ := h
  simp only [hsbkWF, Bool.and_eq_true, Bool.or_eq_true, beq_iff_eq,
    decide_eq_true_eq] at hwf
  obtain ⟨⟨⟨⟨h1, h2⟩, h3⟩, h4⟩, h5⟩ := hwf
  have b1 : hue < 2 ^ (8 * 2) := by norm_num; omega
  have b2 : sat < 2 ^ (8 * 2) := by norm_num; omega
  have b3 : bri < 2 ^ (8 * 2) := by norm_num; omega
  have b4 : kel < 2 ^ (8 * 2) := by norm_num; omega
  refine ⟨natToLE 2 hue ++ (natToLE 2 sat ++ (natToLE 2 bri ++ natToLE 2 kel)), ?_, ?_, ?_⟩
  · simp [hsbkToBytes, packUintList, packUint_eq b1, packUint_eq b2, packUint_eq b3,
      packUint_eq b4]
  · simp [natToLE_length]
  · intro rest
    have hL : (natToLE 2 hue ++ (natToLE 2 sat ++ (natToLE 2 bri ++ natToLE 2 kel))).length = 8 := by
      simp [natToLE_length]
    rw [take_append_of_len rest hL]
    have ht0 : (natToLE 2 hue ++ (natToLE 2 sat ++ (natToLE 2 bri ++ natToLE 2 kel))).take 2 =
        natToLE 2 hue := take_append_of_len _ (natToLE_length 2 hue)
    have hd2 : (natToLE 2 hue ++ (natToLE 2 sat ++ (natToLE 2 bri ++ natToLE 2 kel))).drop 2 =
        natToLE 2 sat ++ (natToLE 2 bri ++ natToLE 2 kel) :=
      drop_append_of_len _ (natToLE_length 2 hue)
    have hd4 : (natToLE 2 hue ++ (natToLE 2 sat ++ (natToLE 2 bri ++ natToLE 2 kel))).drop 4 =
        natToLE 2 bri ++ natToLE 2 kel := by
      rw [show (4 : Nat) = 2 + 2 by rfl, ← List.drop_drop, hd2]
      exact drop_append_of_len _ (natToLE_length 2 sat)
    have hd6 : (natToLE 2 hue ++ (natToLE 2 sat ++ (natToLE 2 bri ++ natToLE 2 kel))).drop 6 =
        natToLE 2 kel := by
      rw [show (6 : Nat) = 4 + 2 by rfl, ← List.drop_drop, hd4]
      exact drop_append_of_len _ (natToLE_length 2 bri)
    simp only [hsbkFromBytes, ht0, hd2, hd4, hd6,
      take_append_of_len _ (natToLE_length 2 sat),
      take_append_of_len _ (natToLE_length 2 bri),
      List.take_of_length_le (by rw [natToLE_length] : (natToLE 2 kel).length ≤ 2),
      leToNat_natToLE b1, leToNat_natToLE b2, leToNat_natToLE b3, leToNat_natToLE b4]
    rw [if_neg (by omega)]

theorem hsbkList_round {vs : List HsbkV} (hwf : vs.all hsbkWF = true) :
    ∃ bs, hsbkListToBytes vs = some bs ∧ bs.length = 8 * vs.length ∧
      ∀ rest, hsbkListFromBytes vs.length (bs ++ rest) = some vs := by
  induction vs with
  | nil => exact ⟨[], rfl, by simp, fun rest => rfl⟩
  | cons h vs ih =>
    simp only [List.all_cons, Bool.and_eq_true] at hwf
    obtain ⟨bs1, e1, l1, d1⟩ := hsbk_round h hwf.1
    obtain ⟨bs2, e2, l2, d2⟩ := ih hwf.2
    refine ⟨bs1 ++ bs2, ?_, ?_, ?_⟩
    · simp [hsbkListToBytes, e1, e2]
    · simp [l1, l2]; ring
    · intro rest
      have hd : (bs1 ++ bs2 ++ rest).drop 8 = bs2 ++ rest := by
        rw [List.append_assoc]
        exact drop_append_of_len _ l1
      have ht : (bs1 ++ bs2 ++ rest).take 8 = (bs1 ++ (bs2 ++ rest)).take 8 := by
        rw [List.append_assoc]
      simp only [hsbkListFromBytes, List.append_assoc]
      rw [d1 (bs2 ++ rest)]
      rw [show (bs1 ++ (bs2 ++ rest)).drop 8 = bs2 ++ rest from by
        rw [← l1]; exact drop_len_append bs1 (bs2 ++ rest)]
      rw [d2 rest]
      rfl

/-! Generic register encode and decode lemmas. -/

theorem decodeField_int (name : String) (k : FieldKind) (count : Nat) (bs : List Nat)
    (hk : k.packsBytes = true) (hblen : bs.length = k.nbytes * count) :
    decodeField ⟨name, k, count⟩ bs = some (.ints (unpackInts k.nbytes count bs)) := by
  cases k <;> first
    | exact absurd hk (by decide)
    | simp [decodeField, hblen]

theorem decodeField_hsbkK (name : String) (count : Nat) (bs : List Nat)
    (hblen : bs.length = 8 * count) :
    decodeField ⟨name, .hsbk, count⟩ bs = (hsbkListFromBytes count bs).map RegVal.hsbks := by
  simp [decodeField, hblen, FieldKind.nbytes]

theorem decodeField_s16K (name : String) (count : Nat) (bs : List Nat)
    (hblen : bs.length = 2 * count) :
    decodeField ⟨name, .s16, count⟩ bs = some (.sints (unpackS16s count bs)) := by
  simp [decodeField, hblen, FieldKind.nbytes]

theorem encodeField_round_int (name : String) (k : FieldKind) (count : Nat) (vs : List Nat)
    (hk : k.packsBytes = true) (hlen : vs.length = count)
    (hb : ∀ x ∈ vs, x < 2 ^ (8 * k.nbytes)) :
    ∃ bs, encodeField ⟨name, k, count⟩ (.ints vs) = some bs ∧
      bs.length = k.nbytes * count ∧
      ∀ rest, decodeField ⟨name, k, count⟩ ((bs ++ rest).take (k.nbytes * count)) =
        some (.ints vs) := by
  obtain ⟨bs, h1, h2, h3⟩ := packUintList_bytes hb
  have hbs_len : bs.length = k.nbytes * count := by rw [h2, hlen]
  refine ⟨bs, ?_, hbs_len, ?_⟩
  · cases k <;> first
      | exact absurd hk (by decide)
      | simp [encodeField, hlen, h1]
  · intro rest
    rw [take_append_of_len rest hbs_len, decodeField_int name k count bs hk hbs_len]
    have h4 := h3 []
    rw [List.append_nil] at h4
    rw [← hlen, h4]

theorem encodeField_round_hsbkK (name : String) (count : Nat) (vs : List HsbkV)
    (hlen : vs.length = count) (hwf : vs.all hsbkWF = true) :
    ∃ bs, encodeField ⟨name, .hsbk, count⟩ (.hsbks vs) = some bs ∧
      bs.length = FieldKind.hsbk.nbytes * count ∧
      ∀ rest, decodeField ⟨name, .hsbk, count⟩
          ((bs ++ rest).take (FieldKind.hsbk.nbytes * count)) = some (.hsbks vs) := by
  obtain ⟨bs, h1, h2, h3⟩ := hsbkList_round hwf
  have hbs_len : bs.length = FieldKind.hsbk.nbytes * count := by
    rw [h2, hlen]; rfl
  refine ⟨bs, ?_, hbs_len, ?_⟩
  · simp [encodeField, hlen, h1]
  · intro rest
    rw [take_append_of_len rest hbs_len,
      decodeField_hsbkK name count bs (by rw [hbs_len]; rfl)]
    have h4 := h3 []
    rw [List.append_nil, hlen] at h4
    rw [h4]
    rfl

theorem unpackS16_packS16 {v : Int} (h1 : -(2 ^ 15) ≤ v) (h2 : v < 2 ^ 15) :
    ∃ bs, packS16 v = some bs ∧ bs.length = 2 ∧
      ∀ rest, unpackS16 ((bs ++ rest).take 2) = v := by
  have hm0 : (0 : Int) ≤ v % (2 ^ 16 : Int) := Int.emod_nonneg v (by norm_num)
  have hm1 : v % (2 ^ 16 : Int) < 2 ^ 16 := Int.emod_lt_of_pos v (by norm_num)
  have hcast : (((v % (2 ^ 16 : Int)).toNat : Int)) = v % (2 ^ 16 : Int) :=
    Int.toNat_of_nonneg hm0
  have hmlt : (v % (2 ^ 16 : Int)).toNat < 2 ^ (8 * 2) := by
    norm_num
    omega
  refine ⟨natToLE 2 (v % (2 ^ 16 : Int)).toNat, ?_, natToLE_length 2 _, ?_⟩
  · simp only [packS16]
    rw [if_pos ⟨h1, h2⟩]
  · intro rest
    rw [take_append_of_len rest (natToLE_length 2 _)]
    simp only [unpackS16, leToNat_natToLE hmlt]
    by_cases hsmall : (v % (2 ^ 16 : Int)).toNat < 2 ^ 15
    · rw [if_pos hsmall]
      omega
    · rw [if_neg hsmall]
      omega

theorem packS16List_bytes {vs : List Int}
    (h : ∀ v ∈ vs, -(2 ^ 15) ≤ v ∧ v < 2 ^ 15) :
    ∃ bs, packS16List vs = some bs ∧ bs.length = 2 * vs.length ∧
      ∀ rest, unpackS16s vs.length (bs ++ rest) = vs := by
  induction vs with
  | nil => exact ⟨[], rfl, by simp, fun rest => rfl⟩
  | cons v vs ih =>
    obtain ⟨hv1, hv2⟩ := h v (List.mem_cons_self v vs)
    obtain ⟨b1, e1, l1, d1⟩ := unpackS16_packS16 hv1 hv2
    obtain ⟨bs, e2, l2, d2⟩ := ih (fun x hx => h x (List.mem_cons_of_mem v hx))
    refine ⟨b1 ++ bs, ?_, ?_, ?_⟩
    · simp [packS16List, e1, e2]
    · simp [l1, l2]; ring
    · intro rest
      simp only [unpackS16s, List.append_assoc]
      rw [d1 (bs ++ rest)]
      rw [show (b1 ++ (bs ++ rest)).drop 2 = bs ++ rest from by
        rw [← l1]; exact drop_len_append b1 (bs ++ rest)]
      rw [d2 rest]

theorem encodeField_round_s16K (name : String) (count : Nat) (vs : List Int)
    (hlen : vs.length = count)
    (hb : ∀ v ∈ vs, -(2 ^ 15) ≤ v ∧ v < 2 ^ 15) :
    ∃ bs, encodeField ⟨name, .s16, count⟩ (.sints vs) = some bs ∧
      bs.length = FieldKind.s16.nbytes * count ∧
      ∀ rest, decodeField ⟨name, .s16, count⟩
          ((bs ++ rest).take (FieldKind.s16.nbytes * count)) = some (.sints vs) := by
  obtain ⟨bs, h1, h2, h3⟩ := packS16List_bytes hb
  have hbs_len : bs.length = FieldKind.s16.nbytes * count := by
    rw [h2, hlen]; rfl
  refine ⟨bs, ?_, hbs_len, ?_⟩
  · simp [encodeField, hlen, h1]
  · intro rest
    rw [take_append_of_len rest hbs_len,
      decodeField_s16K name count bs (by rw [hbs_len]; rfl)]
    have h4 := h3 []
    rw [List.append_nil, hlen] at h4
    rw [h4]

theorem encodeField_round {f : Field} {v : RegVal} (hwf : fieldWF f v = true) :
    ∃ bs, encodeField f v = some bs ∧ bs.length = f.kind.nbytes * f.count ∧
      ∀ rest, decodeField f ((bs ++ rest).take (f.kind.nbytes * f.count)) = some v := by
  obtain ⟨name, kind, count⟩ := f
  cases v with
  | ints vs =>
    cases kind with
    | hsbk => exact absurd hwf (by simp [fieldWF])
    | s16 => exact absurd hwf (by simp [fieldWF])
    | f32 => exact absurd hwf (by simp [fieldWF])
    | u8 =>
      simp only [fieldWF, Bool.and_eq_true, beq_iff_eq, List.all_eq_true,
        decide_eq_true_eq] at hwf
      exact encodeField_round_int name .u8 count vs (by decide) hwf.1 hwf.2
    | u16 =>
      simp only [fieldWF, Bool.and_eq_true, beq_iff_eq, List.all_eq_true,
        decide_eq_true_eq] at hwf
      exact encodeField_round_int name .u16 count vs (by decide) hwf.1 hwf.2
    | u32 =>
      simp only [fieldWF, Bool.and_eq_true, beq_iff_eq, List.all_eq_true,
        decide_eq_true_eq] at hwf
      exact encodeField_round_int name .u32 count vs (by decide) hwf.1 hwf.2
    | u64 =>
      simp only [fieldWF, Bool.and_eq_true, beq_iff_eq, List.all_eq_true,
        decide_eq_true_eq] at hwf
      exact encodeField_round_int name .u64 count vs (by decide) hwf.1 hwf.2
    | char =>
      simp only [fieldWF, Bool.and_eq_true, beq_iff_eq, List.all_eq_true,
        decide_eq_true_eq] at hwf
      exact encodeField_round_int name .char count vs (by decide) hwf.1 hwf.2
  | sints vs =>
    cases kind with
    | s16 =>
      simp only [fieldWF, Bool.and_eq_true, beq_iff_eq, List.all_eq_true,
        decide_eq_true_eq] at hwf
      exact encodeField_round_s16K name count vs hwf.1 hwf.2
    | hsbk => exact absurd hwf (by simp [fieldWF])
    | f32 => exact absurd hwf (by simp [fieldWF])
    | u8 => exact absurd hwf (by simp [fieldWF])
    | u16 => exact absurd hwf (by simp [fieldWF])
    | u32 => exact absurd hwf (by simp [fieldWF])
    | u64 => exact absurd hwf (by simp [fieldWF])
    | char => exact absurd hwf (by simp [fieldWF])
  | floats vs =>
    cases kind with
    | hsbk => exact absurd hwf (by simp [fieldWF])
    | s16 => exact absurd hwf (by simp [fieldWF])
    | f32 => exact absurd hwf (by simp [fieldWF])
    | u8 => exact absurd hwf (by simp [fieldWF])
    | u16 => exact absurd hwf (by simp [fieldWF])
    | u32 => exact absurd hwf (by simp [fieldWF])
    | u64 => exact absurd hwf (by simp [fieldWF])
    | char => exact absurd hwf (by simp [fieldWF])
  | hsbks vs =>
    cases kind with
    | hsbk =>
      simp only [fieldWF, Bool.and_eq_true, beq_iff_eq] at hwf
      exact encodeField_round_hsbkK name count vs hwf.1 hwf.2
    | s16 => exact absurd hwf (by simp [fieldWF])
    | f32 => exact absurd hwf (by simp [fieldWF])
    | u8 => exact absurd hwf (by simp [fieldWF])
    | u16 => exact absurd hwf (by simp [fieldWF])
    | u32 => exact absurd hwf (by simp [fieldWF])
    | u64 => exact absurd hwf (by simp [fieldWF])
    | char => exact absurd hwf (by simp [fieldWF])

theorem schemaNBytes_cons (f : Field) (fs : Schema) :
    schemaNBytes (f :: fs) = f.kind.nbytes * f.count + schemaNBytes fs := by
  simp [schemaNBytes]

theorem structToBytes_round {schema : Schema} {vals : List RegVal}
    (hwf : structWF schema vals = true) :
    ∃ bs, structToBytes schema vals = some bs ∧ bs.length = schemaNBytes schema ∧
      ∀ rest, structFromBytesRaw schema (bs ++ rest) = some vals := by
  induction schema generalizing vals with
  | nil =>
    cases vals with
    | nil => exact ⟨[], rfl, by simp [schemaNBytes], fun rest => rfl⟩
    | cons v vs => simp [structWF] at hwf
  | cons f fs ih =>
    cases vals with
    | nil => simp [structWF] at hwf
    | cons v vs =>
      simp only [structWF, Bool.and_eq_true] at hwf
      obtain ⟨⟨hfv, hres⟩, hrest⟩ := hwf
      obtain ⟨b1, e1, l1, d1⟩ := encodeField_round hfv
      obtain ⟨b2, e2, l2, d2⟩ := ih hrest
      refine ⟨b1 ++ b2, ?_, ?_, ?_⟩
      · simp [structToBytes, e1, e2]
      · simp [l1, l2, schemaNBytes_cons]
      · intro rest
        simp only [structFromBytesRaw, List.append_assoc]
        rw [d1 (b2 ++ rest)]
        rw [show (b1 ++ (b2 ++ rest)).drop (f.kind.nbytes * f.count) = b2 ++ rest from by
          rw [← l1]; exact drop_len_append b1 (b2 ++ rest)]
        rw [d2 rest]
        rfl

theorem structInit_of_wf {schema : Schema} {vals : List RegVal}
    (hwf : structWF schema vals = true) :
    structInit schema vals = vals := by
  induction schema generalizing vals with
  | nil =>
    cases vals with
    | nil => rfl
    | cons v vs => simp [structWF] at hwf
  | cons f fs ih =>
    cases vals with
    | nil => simp [structWF] at hwf
    | cons v vs =>
      simp only [structWF, Bool.and_eq_true, Bool.or_eq_true, Bool.not_eq_true',
        beq_iff_eq] at hwf
      obtain ⟨⟨hfv, hres⟩, hrest⟩ := hwf
      simp only [structInit, ih hrest]
      rcases hres with hfalse | hzero
      · rw [if_neg (by simp [hfalse])]
      · rw [hzero]
        split <;> rfl

theorem structFromBytes_of_round {schema : Schema} {vals : List RegVal} {bs : List Nat}
    (hwf : structWF schema vals = true)
    (hraw : structFromBytesRaw schema bs = some vals) :
    structFromBytes schema bs = some vals := by
  simp [structFromBytes, hraw, structInit_of_wf hwf]

/-! Encoder normal form. -/

theorem get_bytes_eq (payload : Payload) (macAddr : Option (List Nat))
    (res ack : Bool) (seq source : Nat)
    (hwf : structWF payload.schema payload.vals = true)
    (htype0 : payload.type ≠ 0) (htype : payload.type < 2 ^ 16)
    (hmac : ∀ m, macAddr = some m → m.length = 8 ∧ ∀ b ∈ m, b < 256)
    (hseq : seq < 256) (hsrc : source < 2 ^ 32)
    (hsize : 36 + schemaNBytes payload.schema < 2 ^ 16) :
    ∃ pb, structToBytes payload.schema payload.vals = some pb ∧
      pb.length = schemaNBytes payload.schema ∧
      (∀ rest, structFromBytesRaw payload.schema (pb ++ rest) = some payload.vals) ∧
      get_bytes_and_source payload macAddr res ack seq source =
        some ((natToLE 2 (36 + schemaNBytes payload.schema) ++
            natToLE 2 (if macAddr.isSome || payload.type == 2 then 13312 else 5120) ++
            natToLE 4 source) ++
          (macAddr.getD (List.replicate 8 0) ++ List.replicate 6 0 ++
            [res.toNat ||| (ack.toNat <<< 1)] ++ [seq]) ++
          (natToLE 8 0 ++ natToLE 2 payload.type ++ natToLE 2 0) ++ pb, source) := by
  obtain ⟨pb, e1, l1, d1⟩ := structToBytes_round hwf
  have htlen : (macAddr.getD (List.replicate 8 0)).length = 8 := by
    cases macAddr with
    | none => simp
    | some m => simpa using (hmac m rfl).1
  have htb : ∀ b ∈ macAddr.getD (List.replicate 8 0), b < 256 := by
    cases macAddr with
    | none =>
      intro b hbm
      have hb0 : b = 0 := by simpa using hbm
      omega
    | some m =>
      intro b hbm
      exact (hmac m rfl).2 b (by simpa using hbm)
  refine ⟨pb, e1, l1, d1, ?_⟩
  have hsize16 : 8 + 16 + 12 + schemaNBytes payload.schema < 2 ^ 16 := by omega
  have h36 : 8 + 16 + 12 + schemaNBytes payload.schema =
      36 + schemaNBytes payload.schema := by omega
  simp only [get_bytes_and_source, htlen, ne_eq, not_true_eq_false, if_false,
    htype0, if_true, h36]
  rw [frame_to_bytes_eq (36 + schemaNBytes payload.schema)
      (macAddr.isSome || payload.type == 2) source hsize hsrc]
  rw [frameAddress_to_bytes_eq (macAddr.getD (List.replicate 8 0)) res ack seq
      htlen htb hseq]
  rw [protocolHeader_to_bytes_eq payload.type htype]
  rw [e1]
  rfl

/-! Claim C1: encode-decode round trip. -/

/-- C1 counterexample: the registered SetWaveform payload (type 103) whose
cycles register stores the Python float 0.1 does not round-trip: the decoder
returns the float32-rounded double 0x3FB99999A0000000 in place of the
encoded 0x3FB999999999999A, so a non-reserved payload field of
decode(encode(m)) differs from m. -/
theorem c1_counterexample :
    ((get_bytes_and_source setWaveformPayload none false false 0 0).map
        (fun p => (decode_bytes waveRegistry p.1 none none).map
          (fun r => r.payload.vals))) =
      some (Except.ok
        [.ints [0], .ints [1], .hsbks [⟨21845, 65535, 65535, 3500⟩],
         .ints [1024], .floats [0x3FB99999A0000000], .sints [0], .ints [0]]) ∧
    ([.ints [0], .ints [1], .hsbks [⟨21845, 65535, 65535, 3500⟩],
      .ints [1024], RegVal.floats [0x3FB99999A0000000], .sints [0], .ints [0]] ≠
        setWaveformPayload.vals) := by
  exact ⟨rfl, by decide⟩

/-- C1 amended: for every registered message payload without float32
registers (schema built from the unsigned, char, signed-16 and nested Hsbk
register kinds, with well-formed stored values) and every choice of target
mac, res_required, ack_required, sequence and source, decoding the bytes
produced by the encoder yields a packet whose frame, frame-address,
protocol-header and payload fields all equal the encoded values, the
forced-zero reserved fields included (they are zero on both sides); a
float32 register instead decodes to the float32-rounded value, which can
differ from the stored one. -/
theorem c1_encode_decode_roundtrip (payload : Payload) (macAddr : Option (List Nat))
    (res ack : Bool) (seq source : Nat) (registry : Nat → Option Schema)
    (hreg : registry payload.type = some payload.schema)
    (hwf : structWF payload.schema payload.vals = true)
    (htype0 : payload.type ≠ 0) (htype : payload.type < 2 ^ 16)
    (hmac : ∀ m, macAddr = some m → m.length = 8 ∧ ∀ b ∈ m, b < 256)
    (hseq : seq < 256) (hsrc : source < 2 ^ 32)
    (hsize : 36 + schemaNBytes payload.schema < 2 ^ 16) :
    ∃ bs, get_bytes_and_source payload macAddr res ack seq source = some (bs, source) ∧
      decode_bytes registry bs none none = Except.ok
        ⟨⟨36 + schemaNBytes payload.schema, 1024, true,
            macAddr.isSome || payload.type == 2, 0, source⟩,
         ⟨macAddr.getD (List.replicate 8 0), List.replicate 6 0, res, ack, 0, seq⟩,
         ⟨0, payload.type, 0⟩, payload⟩ := by
  obtain ⟨pb, e1, l1, d1, henc⟩ :=
    get_bytes_eq payload macAddr res ack seq source hwf htype0 htype hmac hseq hsrc hsize
  have htlen : (macAddr.getD (List.replicate 8 0)).length = 8 := by
    cases macAddr with
    | none => simp
    | some m => simpa using (hmac m rfl).1
  refine ⟨_, henc, ?_⟩
  have hA : (natToLE 2 (36 + schemaNBytes payload.schema) ++
      natToLE 2 (if macAddr.isSome || payload.type == 2 then 13312 else 5120) ++
      natToLE 4 source).length = 8 := by
    simp [natToLE_length]
  have hB : (macAddr.getD (List.replicate 8 0) ++ List.replicate 6 0 ++
      [res.toNat ||| (ack.toNat <<< 1)] ++ [seq]).length = 16 := by
    simp only [List.length_append, List.length_replicate, List.length_cons,
      List.length_nil, htlen]
  have hC : (natToLE 8 0 ++ natToLE 2 payload.type ++ natToLE 2 0).length = 12 := by
    simp [natToLE_length]
  set A : List Nat := natToLE 2 (36 + schemaNBytes payload.schema) ++
      natToLE 2 (if macAddr.isSome || payload.type == 2 then 13312 else 5120) ++
      natToLE 4 source with hAdef
  set B : List Nat := macAddr.getD (List.replicate 8 0) ++ List.replicate 6 0 ++
      [res.toNat ||| (ack.toNat <<< 1)] ++ [seq] with hBdef
  set C : List Nat := natToLE 8 0 ++ natToLE 2 payload.type ++ natToLE 2 0 with hCdef
  have hr1 : A ++ B ++ C ++ pb = A ++ (B ++ (C ++ pb)) := by
    simp [List.append_assoc]
  have hblen : (A ++ B ++ C ++ pb).length = 36 + schemaNBytes payload.schema := by
    simp only [List.length_append, hA, hB, hC, l1]
    try omega
  have hframe : Frame.from_bytes ((A ++ B ++ C ++ pb).take 8) =
      ⟨36 + schemaNBytes payload.schema, 1024, true,
        macAddr.isSome || payload.type == 2, 0, source⟩ := by
    rw [hr1, hAdef]
    exact frame_round (36 + schemaNBytes payload.schema)
      (macAddr.isSome || payload.type == 2) source hsize hsrc (B ++ (C ++ pb))
  have hdrop8 : (A ++ B ++ C ++ pb).drop 8 = B ++ (C ++ pb) := by
    rw [hr1]
    exact drop_append_of_len _ hA
  have hfa : FrameAddress.from_bytes (((A ++ B ++ C ++ pb).drop 8).take 16) =
      ⟨macAddr.getD (List.replicate 8 0), List.replicate 6 0, res, ack, 0, seq⟩ := by
    rw [hdrop8, hBdef]
    exact frameAddress_round (macAddr.getD (List.replicate 8 0)) res ack seq htlen (C ++ pb)
  have hdrop24 : (A ++ B ++ C ++ pb).drop 24 = C ++ pb := by
    rw [show (24 : Nat) = 8 + 16 by rfl, ← List.drop_drop, hdrop8]
    exact drop_append_of_len _ hB
  have hph : ProtocolHeader.from_bytes (((A ++ B ++ C ++ pb).drop 24).take 12) =
      ⟨0, payload.type, 0⟩ := by
    rw [hdrop24, hCdef]
    exact protocolHeader_round payload.type htype pb
  have hdrop36 : (A ++ B ++ C ++ pb).drop 36 = pb := by
    rw [show (36 : Nat) = 24 + 12 by rfl, ← List.drop_drop, hdrop24]
    exact drop_append_of_len _ hC
  have hpay : structFromBytes payload.schema
      (((A ++ B ++ C ++ pb).drop 36).take (schemaNBytes payload.schema)) =
        some payload.vals := by
    rw [hdrop36, List.take_of_length_le (le_of_eq l1)]
    apply structFromBytes_of_round hwf
    have hd := d1 []
    rwa [List.append_nil] at hd
  simp only [decode_bytes]
  rw [hblen, hframe, hfa, hph]
  simp only [mismatches, hreg, hpay,
    show ¬ (36 + schemaNBytes payload.schema < 8) by omega,
    show ¬ (36 + schemaNBytes payload.schema < 24) by omega,
    show ¬ (36 + schemaNBytes payload.schema < 36) by omega,
    show ¬ (36 + schemaNBytes payload.schema <
      36 + schemaNBytes payload.schema) by omega,
    if_false, ne_eq, not_true_eq_false, not_false_eq_true, ite_false, ite_true,
    Bool.false_eq_true]

/-- Witness for C1: the green-light SetColor payload with the all-zero mac,
sequence 0 and source 0 round-trips through encode and decode. -/
theorem c1_witness :
    sampleRegistry setColorPayload.type = some setColorPayload.schema ∧
    structWF setColorPayload.schema setColorPayload.vals = true ∧
    ∃ bs, get_bytes_and_source setColorPayload (some macZero) false false 0 0 =
        some (bs, 0) ∧
      decode_bytes sampleRegistry bs none none = Except.ok
        ⟨⟨49, 1024, true, true, 0, 0⟩,
         ⟨macZero, List.replicate 6 0, false, false, 0, 0⟩,
         ⟨0, 102, 0⟩, setColorPayload⟩ :=
  ⟨by decide, by decide,
    c1_encode_decode_roundtrip setColorPayload (some macZero) false false 0 0
      sampleRegistry (by decide) (by decide) (by decide) (by decide)
      (fun m hm => by
        obtain rfl : macZero = m := Option.some.inj hm
        decide)
      (by decide) (by decide) (by decide)⟩

/-! Claim C2: the tagged flag. -/

/-- C2 counterexample: encoding the SetColor payload (type 102, not
GetService) with a mac address present yields tagged true, and encoding it
with no mac address yields tagged false, the exact opposite of the claim at
these inputs. -/
theorem c2_counterexample :
    ((get_bytes_and_source setColorPayload (some macZero) false false 0 0).map
        (fun p => (Frame.from_bytes (p.1.take 8)).tagged) = some true) ∧
    ((get_bytes_and_source setColorPayload none false false 0 0).map
        (fun p => (Frame.from_bytes (p.1.take 8)).tagged) = some false) := by
  exact ⟨by decide, by decide⟩

/-- C2 amended: the encoder sets frame.tagged to true exactly when a target
mac address is present or the payload type code is GetService (2); encoding
with no mac address and a non-GetService payload yields tagged false, and
encoding with a mac address yields tagged true. -/
theorem c2_tagged_iff_mac_present_or_getservice (payload : Payload)
    (macAddr : Option (List Nat)) (res ack : Bool) (seq source : Nat)
    (hwf : structWF payload.schema payload.vals = true)
    (htype0 : payload.type ≠ 0) (htype : payload.type < 2 ^ 16)
    (hmac : ∀ m, macAddr = some m → m.length = 8 ∧ ∀ b ∈ m, b < 256)
    (hseq : seq < 256) (hsrc : source < 2 ^ 32)
    (hsize : 36 + schemaNBytes payload.schema < 2 ^ 16) :
    ∃ bs, get_bytes_and_source payload macAddr res ack seq source = some (bs, source) ∧
      (Frame.from_bytes (bs.take 8)).tagged =
        (macAddr.isSome || payload.type == 2) := by
  obtain ⟨pb, e1, l1, d1, henc⟩ :=
    get_bytes_eq payload macAddr res ack seq source hwf htype0 htype hmac hseq hsrc hsize
  refine ⟨_, henc, ?_⟩
  have hr1 : (natToLE 2 (36 + schemaNBytes payload.schema) ++
      natToLE 2 (if macAddr.isSome || payload.type == 2 then 13312 else 5120) ++
      natToLE 4 source) ++
      (macAddr.getD (List.replicate 8 0) ++ List.replicate 6 0 ++
        [res.toNat ||| (ack.toNat <<< 1)] ++ [seq]) ++
      (natToLE 8 0 ++ natToLE 2 payload.type ++ natToLE 2 0) ++ pb =
      (natToLE 2 (36 + schemaNBytes payload.schema) ++
      natToLE 2 (if macAddr.isSome || payload.type == 2 then 13312 else 5120) ++
      natToLE 4 source) ++
      ((macAddr.getD (List.replicate 8 0) ++ List.replicate 6 0 ++
        [res.toNat ||| (ack.toNat <<< 1)] ++ [seq]) ++
      ((natToLE 8 0 ++ natToLE 2 payload.type ++ natToLE 2 0) ++ pb)) := by
    simp [List.append_assoc]
  rw [hr1, frame_round (36 + schemaNBytes payload.schema)
    (macAddr.isSome || payload.type == 2) source hsize hsrc _]

/-- Witness for C2 amended: with a mac address and the SetColor payload the
encoded frame has tagged true. -/
theorem c2_witness :
    ∃ bs, get_bytes_and_source setColorPayload (some macZero) false false 0 0 =
        some (bs, 0) ∧
      (Frame.from_bytes (bs.take 8)).tagged =
        ((some macZero).isSome || setColorPayload.type == 2) :=
  c2_tagged_iff_mac_present_or_getservice setColorPayload (some macZero) false false 0 0
    (by decide) (by decide) (by decide)
    (fun m hm => by
      obtain rfl : macZero = m := Option.some.inj hm
      decide)
    (by decide) (by decide) (by decide)

/-! Claim C4: size self-consistency and the size check. -/

theorem decode_sizeMismatch_iff (registry : Nat → Option Schema) (bs : List Nat)
    (nsrc nseq : Option Nat) (h8 : 8 ≤ bs.length) :
    (decode_bytes registry bs nsrc nseq = Except.error DecodeError.sizeMismatch ↔
      (Frame.from_bytes (bs.take 8)).size ≠ bs.length) := by
  by_cases hsz : bs.length ≠ (Frame.from_bytes (bs.take 8)).size
  · constructor
    · intro _
      exact fun h => hsz (by rw [h])
    · intro _
      simp only [decode_bytes]
      rw [if_neg (by omega : ¬ bs.length < 8), if_pos hsz]
  · push_neg at hsz
    constructor
    · intro hdec
      exfalso
      simp only [decode_bytes] at hdec
      rw [if_neg (by omega : ¬ bs.length < 8),
        if_neg (show ¬ bs.length ≠ (Frame.from_bytes (bs.take 8)).size from
          fun h => h hsz)] at hdec
      repeat
        first
        | (simp at hdec)
        | (split at hdec)
    · intro hne
      exact absurd hsz.symm hne

/-- C4: the emitted byte buffer declares in Frame.size exactly its own total
length (frame plus frame address plus protocol header plus payload),
computed by the encoder; and for every input of at least 8 bytes, decode
fails with the size-mismatch error exactly when the declared Frame.size
differs from the actual byte count, for every choice of nominal source and
sequence (so the size check precedes the source and sequence checks). -/
theorem c4_size_self_consistency (payload : Payload) (macAddr : Option (List Nat))
    (res ack : Bool) (seq source : Nat) (registry : Nat → Option Schema)
    (hwf : structWF payload.schema payload.vals = true)
    (htype0 : payload.type ≠ 0) (htype : payload.type < 2 ^ 16)
    (hmac : ∀ m, macAddr = some m → m.length = 8 ∧ ∀ b ∈ m, b < 256)
    (hseq : seq < 256) (hsrc : source < 2 ^ 32)
    (hsize : 36 + schemaNBytes payload.schema < 2 ^ 16) :
    (∃ bs, get_bytes_and_source payload macAddr res ack seq source = some (bs, source) ∧
       bs.length = 36 + schemaNBytes payload.schema ∧
       leToNat (bs.take 2) = bs.length) ∧
    (∀ bs2 nsrc nseq, 8 ≤ bs2.length →
       (decode_bytes registry bs2 nsrc nseq = Except.error DecodeError.sizeMismatch ↔
         (Frame.from_bytes (bs2.take 8)).size ≠ bs2.length)) := by
  constructor
  · obtain ⟨pb, e1, l1, d1, henc⟩ :=
      get_bytes_eq payload macAddr res ack seq source hwf htype0 htype hmac hseq hsrc hsize
    have htlen : (macAddr.getD (List.replicate 8 0)).length = 8 := by
      cases macAddr with
      | none => simp
      | some m => simpa using (hmac m rfl).1
    refine ⟨_, henc, ?_, ?_⟩
    · simp only [List.length_append, natToLE_length, List.length_replicate,
        List.length_cons, List.length_nil, htlen, l1]
      try omega
    · have hsplit : (natToLE 2 (36 + schemaNBytes payload.schema) ++
          natToLE 2 (if macAddr.isSome || payload.type == 2 then 13312 else 5120) ++
          natToLE 4 source) ++
          (macAddr.getD (List.replicate 8 0) ++ List.replicate 6 0 ++
            [res.toNat ||| (ack.toNat <<< 1)] ++ [seq]) ++
          (natToLE 8 0 ++ natToLE 2 payload.type ++ natToLE 2 0) ++ pb =
          natToLE 2 (36 + schemaNBytes payload.schema) ++
          (natToLE 2 (if macAddr.isSome || payload.type == 2 then 13312 else 5120) ++
          (natToLE 4 source ++
          ((macAddr.getD (List.replicate 8 0) ++ List.replicate 6 0 ++
            [res.toNat ||| (ack.toNat <<< 1)] ++ [seq]) ++
          ((natToLE 8 0 ++ natToLE 2 payload.type ++ natToLE 2 0) ++ pb)))) := by
        simp [List.append_assoc]
      rw [hsplit, take_append_of_len _ (natToLE_length 2 _), leToNat_natToLE
        (show 36 + schemaNBytes payload.schema < 2 ^ (8 * 2) by norm_num; omega)]
      rw [← hsplit]
      simp only [List.length_append, natToLE_length, List.length_replicate,
        List.length_cons, List.length_nil, htlen, l1]
      try omega
  · intro bs2 nsrc nseq h8
    exact decode_sizeMismatch_iff registry bs2 nsrc nseq h8

/-- Witness for C4: the Acknowledgement payload encodes to a 36-byte buffer
declaring size 36, and a 36-byte buffer declaring size 36 does not raise the
size mismatch while one with a wrong declared size does. -/
theorem c4_witness :
    ∃ bs, get_bytes_and_source ackPayload none false false 0 7 = some (bs, 7) ∧
      bs.length = 36 + schemaNBytes ackPayload.schema ∧
      leToNat (bs.take 2) = bs.length :=
  (c4_size_self_consistency ackPayload none false false 0 7 sampleRegistry
    (by decide) (by decide) (by decide) (fun m hm => nomatch hm)
    (by decide) (by decide) (by decide)).1

/-! Claim C5: a source or sequence mismatch is a hard error. -/

/-- C5 counterexample: the receive path of send_recv hands a packet whose
frame source is 1 to decode_bytes with expected source 2 and gets the
source-mismatch error back; the mismatch is raised to the caller (send_recv
has no retry loop), not ignored. -/
theorem c5_counterexample :
    (Frame.from_bytes (ackBytesSourceOne.take 8)).source = 1 ∧
    send_recv_response sampleRegistry ackBytesSourceOne 2 0 =
      Except.error DecodeError.sourceMismatch := by
  exact ⟨by decide, rfl⟩

/-- C5 amended: when the received datagram passes the size check, a frame
source differing from the expected source makes send_recv surface the
source-mismatch error to the caller, and a matching source with a sequence
differing from the expected sequence surfaces the sequence-mismatch error;
there is no resumed wait. -/
theorem c5_mismatch_is_hard_error (registry : Nat → Option Schema) (bs : List Nat)
    (src q : Nat) (h8 : 8 ≤ bs.length)
    (hsz : (Frame.from_bytes (bs.take 8)).size = bs.length) :
    ((Frame.from_bytes (bs.take 8)).source ≠ src →
        send_recv_response registry bs src q = Except.error DecodeError.sourceMismatch) ∧
    (24 ≤ bs.length → (Frame.from_bytes (bs.take 8)).source = src →
        (FrameAddress.from_bytes ((bs.drop 8).take 16)).sequence ≠ q →
        send_recv_response registry bs src q =
          Except.error DecodeError.sequenceMismatch) := by
  constructor
  · intro hne
    simp only [send_recv_response, decode_bytes]
    rw [if_neg (by omega : ¬ bs.length < 8),
      if_neg (show ¬ bs.length ≠ (Frame.from_bytes (bs.take 8)).size from
        fun h => h hsz.symm),
      if_pos (show mismatches (some src) (Frame.from_bytes (bs.take 8)).source = true by
        simpa [mismatches] using hne)]
  · intro h24 heq hneq
    simp only [send_recv_response, decode_bytes]
    rw [if_neg (by omega : ¬ bs.length < 8),
      if_neg (show ¬ bs.length ≠ (Frame.from_bytes (bs.take 8)).size from
        fun h => h hsz.symm),
      if_neg (show ¬ mismatches (some src) (Frame.from_bytes (bs.take 8)).source = true by
        simp [mismatches, heq]),
      if_neg (by omega : ¬ bs.length < 24),
      if_pos (show mismatches (some q)
          (FrameAddress.from_bytes ((bs.drop 8).take 16)).sequence = true by
        simpa [mismatches] using hneq)]

/-- Witness for C5 amended at the concrete Acknowledgement packet bytes. -/
theorem c5_witness :
    send_recv_response sampleRegistry ackBytesSourceOne 2 0 =
      Except.error DecodeError.sourceMismatch :=
  (c5_mismatch_is_hard_error sampleRegistry ackBytesSourceOne 2 0
    (by decide) (by decide)).1 (by decide)

/-! Claim C9: dict lemmas for the discovery aggregation. -/

theorem dictGet_of_any_false {R : Type} {d : List (String × R)} {k : String}
    (h : d.any (fun p => p.1 == k) = false) : dictGet d k = none := by
  induction d with
  | nil => rfl
  | cons p rest ih =>
    simp only [List.any_cons, Bool.or_eq_false_iff] at h
    simp only [dictGet, h.1, Bool.false_eq_true, if_false]
    exact ih h.2

theorem dictGet_append_left {R : Type} {d1 : List (String × R)} (d2 : List (String × R))
    {k : String} {v : R} (h : dictGet d1 k = some v) :
    dictGet (d1 ++ d2) k = some v := by
  induction d1 with
  | nil => exact absurd h (by simp [dictGet])
  | cons p rest ih =>
    simp only [dictGet] at h ⊢
    by_cases hp : p.1 == k
    · rw [if_pos hp] at h ⊢
      exact h
    · rw [if_neg hp] at h ⊢
      exact ih h

theorem dictGet_append_right {R : Type} {d1 : List (String × R)} (d2 : List (String × R))
    {k : String} (h : dictGet d1 k = none) :
    dictGet (d1 ++ d2) k = dictGet d2 k := by
  induction d1 with
  | nil => rfl
  | cons p rest ih =>
    simp only [dictGet] at h ⊢
    by_cases hp : p.1 == k
    · rw [if_pos hp] at h
      exact absurd h (by simp)
    · rw [if_neg hp] at h ⊢
      exact ih h

theorem dictGet_map_set_same {R : Type} {d : List (String × R)} {k : String} (v : R)
    (hany : d.any (fun p => p.1 == k) = true) :
    dictGet (d.map (fun p => if p.1 == k then (k, v) else p)) k = some v := by
  induction d with
  | nil => simp at hany
  | cons p rest ih =>
    by_cases hp : p.1 == k
    · simp only [List.map_cons, hp, if_true, dictGet]
      rw [if_pos (by simp)]
    · simp only [List.map_cons, hp, Bool.false_eq_true, if_false, dictGet]
      apply ih
      simp only [List.any_cons, hp, Bool.false_or] at hany
      exact hany

theorem dictGet_map_set_other {R : Type} {d : List (String × R)} {k k2 : String} (v : R)
    (hne : k2 ≠ k) :
    dictGet (d.map (fun p => if p.1 == k then (k, v) else p)) k2 = dictGet d k2 := by
  induction d with
  | nil => rfl
  | cons p rest ih =>
    by_cases hp : p.1 == k
    · have hpk : p.1 = k := by simpa using hp
      simp only [List.map_cons, hp, if_true, dictGet]
      rw [if_neg (by simpa using fun h => hne h.symm),
        if_neg (by rw [hpk]; simpa using fun h => hne h.symm)]
      exact ih
    · simp only [List.map_cons, hp, Bool.false_eq_true, if_false, dictGet]
      by_cases hp2 : p.1 == k2
      · rw [if_pos hp2, if_pos hp2]
      · rw [if_neg hp2, if_neg hp2]
        exact ih

theorem dictGet_dictSet {R : Type} (d : List (String × R)) (k : String) (v : R)
    (k2 : String) :
    dictGet (dictSet d k v) k2 = if k2 = k then some v else dictGet d k2 := by
  unfold dictSet
  by_cases hany : d.any (fun p => p.1 == k) = true
  · rw [if_pos hany]
    by_cases hk2 : k2 = k
    · subst hk2
      rw [if_pos rfl]
      exact dictGet_map_set_same v hany
    · rw [if_neg hk2]
      exact dictGet_map_set_other v hk2
  · rw [if_neg hany]
    have hnone : dictGet d k = none :=
      dictGet_of_any_false (Bool.eq_false_iff.mpr hany)
    by_cases hk2 : k2 = k
    · subst hk2
      rw [if_pos rfl, dictGet_append_right _ hnone]
      simp [dictGet]
    · rw [if_neg hk2]
      cases hval : dictGet d k2 with
      | some v2 => exact dictGet_append_left _ hval
      | none =>
        rw [dictGet_append_right _ hval]
        simp only [dictGet]
        rw [if_neg (by simpa using fun h => hk2 h.symm)]

theorem countKey_cons {R : Type} (p : String × R) (d : List (String × R)) (k : String) :
    countKey (p :: d) k = (if p.1 == k then 1 else 0) + countKey d k := by
  simp only [countKey, List.filter_cons]
  split
  · simp [Nat.add_comm]
  · simp

theorem countKey_append {R : Type} (d1 d2 : List (String × R)) (k : String) :
    countKey (d1 ++ d2) k = countKey d1 k + countKey d2 k := by
  simp [countKey, List.filter_append]

theorem countKey_zero_of_any_false {R : Type} {d : List (String × R)} {k : String}
    (h : d.any (fun p => p.1 == k) = false) : countKey d k = 0 := by
  induction d with
  | nil => rfl
  | cons p rest ih =>
    simp only [List.any_cons, Bool.or_eq_false_iff] at h
    rw [countKey_cons, ih h.2]
    simp [h.1]

theorem countKey_map_set {R : Type} (d : List (String × R)) (k k2 : String) (v : R) :
    countKey (d.map (fun p => if p.1 == k then (k, v) else p)) k2 = countKey d k2 := by
  induction d with
  | nil => rfl
  | cons p rest ih =>
    by_cases hp : p.1 == k
    · have hpk : p.1 = k := by simpa using hp
      simp only [List.map_cons, hp, if_true]
      rw [countKey_cons, countKey_cons, ih, hpk]
    · simp only [List.map_cons, hp, Bool.false_eq_true, if_false]
      rw [countKey_cons, countKey_cons, ih]

theorem dictSet_count {R : Type} {d : List (String × R)} (k : String) (v : R)
    (k2 : String) (h : countKey d k2 ≤ 1) :
    countKey (dictSet d k v) k2 ≤ 1 := by
  unfold dictSet
  by_cases hany : d.any (fun p => p.1 == k) = true
  · rw [if_pos hany, countKey_map_set]
    exact h
  · rw [if_neg hany, countKey_append, countKey_cons]
    have h0 : countKey ([] : List (String × R)) k2 = 0 := rfl
    rw [h0]
    by_cases hk : k == k2
    · have hkk : k = k2 := by simpa using hk
      have hz : countKey d k2 = 0 := by
        subst hkk
        exact countKey_zero_of_any_false (Bool.eq_false_iff.mpr hany)
      rw [hz, if_pos hk]
    · have hkf : (((k, v) : String × R).1 == k2) = false := Bool.eq_false_iff.mpr hk
      rw [hkf]
      simp only [Bool.false_eq_true, if_false]
      omega

theorem foldl_dictGet {R : Type} (l : List (String × R)) (k : String) :
    ∀ d, dictGet (l.foldl (fun d2 r => dictSet d2 r.1 r.2) d) k =
      match lastWithKey l k with
      | some v => some v
      | none => dictGet d k := by
  induction l with
  | nil => intro d; rfl
  | cons x xs ih =>
    intro d
    simp only [List.foldl_cons, lastWithKey]
    rw [ih (dictSet d x.1 x.2)]
    cases hlast : lastWithKey xs k with
    | some v => rfl
    | none =>
      simp only
      rw [dictGet_dictSet]
      by_cases hx : x.1 == k
      · have hxk : x.1 = k := by simpa using hx
        rw [if_pos hxk.symm, if_pos hx]
      · rw [if_neg hx, if_neg (fun h => hx (by simp [h]))]

theorem foldl_count {R : Type} (l : List (String × R)) :
    ∀ d : List (String × R), (∀ k2, countKey d k2 ≤ 1) →
      ∀ k2, countKey (l.foldl (fun d2 r => dictSet d2 r.1 r.2) d) k2 ≤ 1 := by
  induction l with
  | nil => intro d h k2; exact h k2
  | cons x xs ih =>
    intro d h k2
    exact ih (dictSet d x.1 x.2) (fun k3 => dictSet_count x.1 x.2 k3 (h k3)) k2

theorem discoverAggregate_flat {R : Type} (rounds : List (List (String × R))) :
    discoverAggregate rounds =
      rounds.flatten.foldl (fun d2 r => dictSet d2 r.1 r.2) [] := by
  rw [discoverAggregate]
  generalize ([] : List (String × R)) = init
  induction rounds generalizing init with
  | nil => rfl
  | cons r rs ih =>
    simp only [List.foldl_cons, List.flatten_cons, List.foldl_append]
    exact ih _

/-- C9: during one discovery run the StateService responses collected across
all retry rounds are deduplicated by responder IP with the last reply
winning: the aggregated dict holds at most one entry per IP, and looking an
IP up yields exactly the most recently received response with that IP (and
nothing when no response came from it). -/
theorem c9_discover_dedup_last_wins {R : Type} (rounds : List (List (String × R)))
    (ip : String) :
    countKey (discoverAggregate rounds) ip ≤ 1 ∧
    dictGet (discoverAggregate rounds) ip = lastWithKey rounds.flatten ip := by
  constructor
  · rw [discoverAggregate_flat]
    exact foldl_count rounds.flatten [] (fun k2 => by simp [countKey]) ip
  · rw [discoverAggregate_flat, foldl_dictGet rounds.flatten ip []]
    cases hlast : lastWithKey rounds.flatten ip with
    | some v => rfl
    | none => rfl

end Lifx
